import Mathlib

/-!
Verification development for the a2a-session-manager repository.

Shallow embedding of the parts of the code base that the checked claims
concern: the session data model and stores, the session-aware tool
processor (caching / retry / event emission), the plan DSL, the graph
model, the plan executor's batch scheduler (Kahn's algorithm), and the
in-process tool execution strategy.

Python dicts are modelled as association lists with first-match lookup
and in-place overwrite; Python sets as duplicate-free lists; JSON values
as an inductive Json type; datetimes by their ISO-8601 strings (the pair
datetime.isoformat / fromisoformat being mutually inverse); and async
functions as pure state-passing functions (the event loop serialises
every step the claims talk about).
-/

namespace A2A

/-- JSON-like values, the payloads the repository passes around
(arguments, results, event messages, serialized sessions). Numbers are
modelled as integers; none of the checked claims involves float
payloads. -/
inductive Json where
  | null : Json
  | bool (b : Bool) : Json
  | num (n : Int) : Json
  | str (s : String) : Json
  | arr (items : List Json) : Json
  | obj (fields : List (String × Json)) : Json

/-- Dictionary lookup on a JSON object field list: first binding wins,
like a Python dict built left to right (later keys overwrite, which the
builders below implement explicitly). -/
def Json.lookup : List (String × Json) → String → Option Json
  | [], _ => none
  | kv :: rest, k => if kv.1 = k then some kv.2 else Json.lookup rest k

/-- Python d.get(k, default) on a JSON object; non-objects yield the
default (the code only ever applies .get to dicts). -/
def Json.get (j : Json) (k : String) (default : Json) : Json :=
  match j with
  | .obj fields => (Json.lookup fields k).getD default
  | _ => default

/-- Python d.get(k, default) where the expected value is a string. -/
def Json.getStr (j : Json) (k : String) (default : String) : String :=
  match j.get k (.str default) with
  | .str s => s
  | _ => default

/-- Python dict assignment d[k] = v on an association list: overwrite
the binding in place when the key exists, append otherwise (insertion
order kept, as CPython dicts do; a dict never holds a key twice, so
replacing the first occurrence is exact). -/
def dictSet {α : Type} : List (String × α) → String → α → List (String × α)
  | [], k, v => [(k, v)]
  | kv :: rest, k, v => if kv.1 = k then (k, v) :: rest else kv :: dictSet rest k v

/-- Association-list lookup, the model of Python d.get(k) / k in d. -/
def dictGet {α : Type} : List (String × α) → String → Option α
  | [], _ => none
  | kv :: rest, k => if kv.1 = k then some kv.2 else dictGet rest k

/-- Render an optional JSON value the way the code passes Optional
fields into JSON payloads: None becomes null. -/
def optJson : Option Json → Json
  | none => Json.null
  | some j => j

/-- Render an optional string likewise. -/
def optStr : Option String → Json
  | none => Json.null
  | some s => Json.str s

-- ---------------------------------------------------------------------
-- Session data model
-- (a2a_session_manager/models: session.py, session_event.py,
-- session_run.py. The EventType / EventSource enums and the
-- SessionMetadata model are imported by those files but their modules
-- are not in the source tree; they are modelled from the spec below.)
-- ---------------------------------------------------------------------

/-- Modelled from the spec: models/event_type.py is not in the source
tree. Spec section 3: event type is one of message, summary, tool_call;
processor.py scans this enum for ERROR / EXCEPTION / FAILURE members and
finds none, falling back to MESSAGE for error events. -/
inductive EventType where
  | message : EventType
  | summary : EventType
  | toolCall : EventType
deriving DecidableEq, Repr

/-- Modelled from the spec: models/event_source.py is not in the source
tree. Spec section 3: source is one of user, llm, system. -/
inductive EventSource where
  | user : EventSource
  | llm : EventSource
  | system : EventSource
deriving DecidableEq, Repr

/-- RunStatus, from models/session_run.py. -/
inductive RunStatus where
  | pending : RunStatus
  | running : RunStatus
  | completed : RunStatus
  | failed : RunStatus
  | cancelled : RunStatus
deriving DecidableEq, Repr

/-- SessionEvent, from models/session_event.py. The uuid4 id is carried
as a string; the timestamp as its ISO-8601 string; the generic message
payload as Json (null when None). Token-usage accounting
(create_with_tokens) has no bearing on the checked claims and is not
modelled. -/
structure SessionEvent where
  id : String
  timestamp : String
  message : Json
  task_id : Option String
  type : EventType
  source : EventSource
  metadata : List (String × Json)

/-- SessionRun, from models/session_run.py. -/
structure SessionRun where
  id : String
  started_at : String
  ended_at : Option String
  status : RunStatus
  metadata : List (String × Json)

/-- Modelled from the spec: models/session_metadata.py is not in the
source tree. Spec section 3: a session carries creation metadata; only
the creation timestamp is observable through the checked claims. -/
structure SessionMetadata where
  created_at : String
deriving DecidableEq, Repr

/-- Session, from models/session.py (its plain data fields; the
_sync_hierarchy validator is modelled separately below because it is an
effect on the store, not part of the record). -/
structure Session where
  id : String
  metadata : SessionMetadata
  parent_id : Option String
  child_ids : List String
  task_ids : List String
  runs : List SessionRun
  events : List SessionEvent
  state : List (String × Json)

-- ---------------------------------------------------------------------
-- storage.py: InMemorySessionStore and SessionStoreProvider
-- ---------------------------------------------------------------------

/-- The _data dict of storage.py InMemorySessionStore, keyed by session
id. -/
def SessionStoreData := List (String × Session)

/-- InMemorySessionStore.get from storage.py: self._data.get(session_id). -/
def storeGet (d : List (String × Session)) (sid : String) : Option Session :=
  dictGet d sid

/-- InMemorySessionStore.save from storage.py:
self._data[session.id] = session. -/
def storeSave (d : List (String × Session)) (s : Session) : List (String × Session) :=
  dictSet d s.id s

/-- Session._sync_hierarchy from models/session.py, as the effect the
model_validator has on the current store when a session is constructed:
if parent_id is truthy (set and nonempty) and the store holds the
parent, and the new id is not yet among the parent's child_ids, append
it and save the parent back. Otherwise the store is untouched. -/
def sync_hierarchy (store : List (String × Session)) (s : Session) : List (String × Session) :=
  match s.parent_id with
  | none => store
  | some pid =>
    if pid = "" then store
    else
      match storeGet store pid with
      | none => store
      | some parent =>
        if s.id ∈ parent.child_ids then store
        else storeSave store { parent with child_ids := parent.child_ids ++ [s.id] }

/-- Lookup after assignment: the assigned key maps to the new value,
every other key is untouched. -/
theorem dictGet_dictSet {α : Type} (d : List (String × α)) (k k2 : String) (v : α) :
    dictGet (dictSet d k v) k2 = if k2 = k then some v else dictGet d k2 := by
  induction d with
  | nil =>
    by_cases h : k2 = k
    · subst h; simp [dictSet, dictGet]
    · have h2 : ¬ (k = k2) := fun hh => h hh.symm
      simp [dictSet, dictGet, h, h2]
  | cons kv rest ih =>
    by_cases hk : kv.1 = k
    · by_cases h2 : k2 = k
      · subst h2
        simp [dictSet, dictGet, hk]
      · have hkk2 : ¬ (kv.1 = k2) := fun hh => h2 (hh.symm.trans hk)
        have hk2 : ¬ (k = k2) := fun hh => h2 hh.symm
        simp [dictSet, dictGet, hk, h2, hkk2, hk2]
    · by_cases h3 : kv.1 = k2
      · have hk2 : ¬ (k2 = k) := fun hh => hk (h3.trans hh)
        simp [dictSet, dictGet, hk, h3, hk2]
      · simp [dictSet, dictGet, hk, h3, ih]

/-- Session used for the C6 counterexample: a fresh session naming a
parent that the store does not contain. -/
def sessC6 : Session :=
  { id := "child-1"
    metadata := { created_at := "2025-01-01T00:00:00+00:00" }
    parent_id := some "parent-1"
    child_ids := []
    task_ids := []
    runs := []
    events := []
    state := [] }

/-- C6 counterexample: constructing a session whose parent_id names a
session absent from the store performs no hierarchy sync at all -- after
construction no session is stored under the parent id, so the stored
parent cannot list the child. The claim's "whatever the state of the
store's parent entry" fails for the absent-entry state. -/
theorem C6_counterexample :
    ¬ ∃ parent : Session,
      storeGet (sync_hierarchy [] sessC6) "parent-1" = some parent ∧
        sessC6.id ∈ parent.child_ids := by
  intro h
  obtain ⟨parent, hp, _⟩ := h
  simp [sync_hierarchy, sessC6, storeGet, dictGet] at hp

/-- C6 amended: if the session's parent_id is a nonempty id under which
the store holds a session bearing that id, then after construction the
stored parent's child_ids contains the new session's id (whether or not
it already did). -/
theorem C6_parent_child_sync (store : List (String × Session)) (s : Session)
    (pid : String) (parent : Session)
    (hpid : s.parent_id = some pid) (hne : pid ≠ "")
    (hget : storeGet store pid = some parent) (hid : parent.id = pid) :
    ∃ q : Session,
      storeGet (sync_hierarchy store s) pid = some q ∧ s.id ∈ q.child_ids := by
  unfold sync_hierarchy
  rw [hpid]
  simp only [if_neg hne, hget]
  by_cases hmem : s.id ∈ parent.child_ids
  · simp only [if_pos hmem]
    exact ⟨parent, hget, hmem⟩
  · simp only [if_neg hmem]
    refine ⟨{ parent with child_ids := parent.child_ids ++ [s.id] }, ?_, ?_⟩
    · unfold storeSave storeGet
      simp only [hid]
      rw [dictGet_dictSet]
      simp
    · simp

/-- Witness for C6_parent_child_sync at a concrete store. -/
theorem C6_parent_child_sync_witness :
    ∃ q : Session,
      storeGet
        (sync_hierarchy
          [("parent-1",
            { id := "parent-1"
              metadata := { created_at := "t0" }
              parent_id := none
              child_ids := []
              task_ids := []
              runs := []
              events := []
              state := [] })]
          sessC6) "parent-1" = some q ∧ sessC6.id ∈ q.child_ids :=
  C6_parent_child_sync _ sessC6 "parent-1" _ rfl (by simp) rfl rfl

-- ---------------------------------------------------------------------
-- storage/providers/memory.py: async InMemorySessionStore
-- ---------------------------------------------------------------------

/-- storage/providers/memory.py InMemorySessionStore.get:
self._data.get(session_id). -/
def MemoryProvider.get (d : List (String × Session)) (sid : String) : Option Session :=
  dictGet d sid

/-- storage/providers/memory.py InMemorySessionStore.save:
self._data[session.id] = session. -/
def MemoryProvider.save (d : List (String × Session)) (s : Session) : List (String × Session) :=
  dictSet d s.id s

-- ---------------------------------------------------------------------
-- storage/providers/file.py: SessionSerializer and FileSessionStore
-- Serialization follows pydantic model_dump field by field; datetimes
-- are already carried as their isoformat strings (file.py _json_default
-- turns datetime into isoformat on dump, pydantic parses it back on
-- validate). A session file's content is modelled as the parsed JSON
-- value; the json.dumps / json.loads string round trip of the standard
-- json library is taken as given.
-- ---------------------------------------------------------------------

/-- String value of a RunStatus member (session_run.py str-Enum values). -/
def runStatusStr : RunStatus → String
  | .pending => "pending"
  | .running => "running"
  | .completed => "completed"
  | .failed => "failed"
  | .cancelled => "cancelled"

/-- Validate a RunStatus from its string value. -/
def parseRunStatus : String → Option RunStatus
  | "pending" => some RunStatus.pending
  | "running" => some RunStatus.running
  | "completed" => some RunStatus.completed
  | "failed" => some RunStatus.failed
  | "cancelled" => some RunStatus.cancelled
  | _ => none

/-- Modelled from the spec: string values of EventType (spec section 6,
persisted event form: message, summary, tool_call). -/
def eventTypeStr : EventType → String
  | .message => "message"
  | .summary => "summary"
  | .toolCall => "tool_call"

/-- Validate an EventType from its string value. -/
def parseEventType : String → Option EventType
  | "message" => some EventType.message
  | "summary" => some EventType.summary
  | "tool_call" => some EventType.toolCall
  | _ => none

/-- Modelled from the spec: string values of EventSource (spec section
3: source is one of user, llm, system). -/
def eventSourceStr : EventSource → String
  | .user => "user"
  | .llm => "llm"
  | .system => "system"

/-- Validate an EventSource from its string value. -/
def parseEventSource : String → Option EventSource
  | "user" => some EventSource.user
  | "llm" => some EventSource.llm
  | "system" => some EventSource.system
  | _ => none

/-- Expect a JSON string. -/
def parseStr : Json → Option String
  | .str s => some s
  | _ => none

/-- Expect a nullable JSON string (Optional[str]). -/
def parseOptStr : Json → Option (Option String)
  | .null => some none
  | .str s => some (some s)
  | _ => none

/-- Expect a JSON object, yielding its field list (a Dict[str, Any]). -/
def parseObjFields : Json → Option (List (String × Json))
  | .obj fs => some fs
  | _ => none

/-- Validate every element of a JSON list, failing when any element
fails. -/
def parseList {α : Type} (p : Json → Option α) : List Json → Option (List α)
  | [] => some []
  | x :: xs =>
    match p x, parseList p xs with
    | some a, some ys => some (a :: ys)
    | _, _ => none

/-- model_dump of a SessionEvent (fields in declaration order). -/
def eventToDict (e : SessionEvent) : Json :=
  .obj [("id", .str e.id), ("timestamp", .str e.timestamp), ("message", e.message),
        ("task_id", optStr e.task_id), ("type", .str (eventTypeStr e.type)),
        ("source", .str (eventSourceStr e.source)), ("metadata", .obj e.metadata)]

/-- model_validate of a SessionEvent: field lookup by name (pydantic is
order-insensitive and ignores extra keys). -/
def parseEvent (j : Json) : Option SessionEvent := do
  let fs ← parseObjFields j
  let id ← (Json.lookup fs "id").bind parseStr
  let ts ← (Json.lookup fs "timestamp").bind parseStr
  let msg ← Json.lookup fs "message"
  let task ← (Json.lookup fs "task_id").bind parseOptStr
  let ty ← (Json.lookup fs "type").bind (fun v => (parseStr v).bind parseEventType)
  let src ← (Json.lookup fs "source").bind (fun v => (parseStr v).bind parseEventSource)
  let md ← (Json.lookup fs "metadata").bind parseObjFields
  pure { id := id, timestamp := ts, message := msg, task_id := task,
         type := ty, source := src, metadata := md }

/-- model_dump of a SessionRun. -/
def runToDict (r : SessionRun) : Json :=
  .obj [("id", .str r.id), ("started_at", .str r.started_at),
        ("ended_at", optStr r.ended_at), ("status", .str (runStatusStr r.status)),
        ("metadata", .obj r.metadata)]

/-- model_validate of a SessionRun. -/
def parseRun (j : Json) : Option SessionRun := do
  let fs ← parseObjFields j
  let id ← (Json.lookup fs "id").bind parseStr
  let st ← (Json.lookup fs "started_at").bind parseStr
  let en ← (Json.lookup fs "ended_at").bind parseOptStr
  let status ← (Json.lookup fs "status").bind (fun v => (parseStr v).bind parseRunStatus)
  let md ← (Json.lookup fs "metadata").bind parseObjFields
  pure { id := id, started_at := st, ended_at := en, status := status, metadata := md }

/-- SessionSerializer.to_dict from storage/providers/file.py: pydantic
model_dump of the Session, fields in declaration order. -/
def sessionToDict (s : Session) : Json :=
  .obj [("id", .str s.id),
        ("metadata", .obj [("created_at", .str s.metadata.created_at)]),
        ("parent_id", optStr s.parent_id),
        ("child_ids", .arr (s.child_ids.map Json.str)),
        ("task_ids", .arr (s.task_ids.map Json.str)),
        ("runs", .arr (s.runs.map runToDict)),
        ("events", .arr (s.events.map eventToDict)),
        ("state", .obj s.state)]

/-- Expect a JSON array of strings. -/
def parseStrList (j : Json) : Option (List String) :=
  match j with
  | .arr xs => parseList parseStr xs
  | _ => none

/-- SessionSerializer.from_dict from storage/providers/file.py: pydantic
model_validate of a Session; any validation failure is reported as a
deserialization failure (FileStorageError), i.e. none. The value of the
parsed session is unaffected by the _sync_hierarchy validator, which
only touches the store. -/
def sessionFromDict (j : Json) : Option Session := do
  let fs ← parseObjFields j
  let id ← (Json.lookup fs "id").bind parseStr
  let mdFields ← (Json.lookup fs "metadata").bind parseObjFields
  let created ← (Json.lookup mdFields "created_at").bind parseStr
  let pid ← (Json.lookup fs "parent_id").bind parseOptStr
  let children ← (Json.lookup fs "child_ids").bind parseStrList
  let tasks ← (Json.lookup fs "task_ids").bind parseStrList
  let runs ← (Json.lookup fs "runs").bind (fun v =>
    match v with
    | .arr xs => parseList parseRun xs
    | _ => none)
  let events ← (Json.lookup fs "events").bind (fun v =>
    match v with
    | .arr xs => parseList parseEvent xs
    | _ => none)
  let st ← (Json.lookup fs "state").bind parseObjFields
  pure { id := id, metadata := { created_at := created }, parent_id := pid,
         child_ids := children, task_ids := tasks, runs := runs,
         events := events, state := st }

/-- FileSessionStore state from storage/providers/file.py: the
write-through cache and the session files under the store directory
(keyed by session id; the path is directory/id.json). -/
structure FileStore where
  cache : List (String × Session)
  files : List (String × Json)
  auto_save : Bool

/-- FileSessionStore.save: update the cache, and when auto_save holds
write the serialized session to its file. -/
def FileStore.save (st : FileStore) (s : Session) : FileStore :=
  let st1 : FileStore := { st with cache := dictSet st.cache s.id s }
  if st1.auto_save then
    { st1 with files := dictSet st1.files s.id (sessionToDict s) }
  else st1

/-- FileSessionStore.get: cache first; otherwise read and deserialize
the file, populating the cache on success. Missing file or failed
deserialization yields none. -/
def FileStore.get (st : FileStore) (sid : String) : Option Session × FileStore :=
  match dictGet st.cache sid with
  | some s => (some s, st)
  | none =>
    match dictGet st.files sid with
    | none => (none, st)
    | some data =>
      match sessionFromDict data with
      | none => (none, st)
      | some s => (some s, { st with cache := dictSet st.cache sid s })

/-- FileSessionStore.clear_cache. -/
def FileStore.clear_cache (st : FileStore) : FileStore :=
  { st with cache := [] }

/-- Parsing a rendered list element by element recovers the list. -/
theorem parseList_map {α : Type} (p : Json → Option α) (f : α → Json)
    (l : List α) (h : ∀ x ∈ l, p (f x) = some x) :
    parseList p (l.map f) = some l := by
  induction l with
  | nil => rfl
  | cons x xs ih =>
    have hx : p (f x) = some x := h x (by simp)
    have hxs : parseList p (xs.map f) = some xs := ih (fun y hy => h y (by simp [hy]))
    simp [parseList, hx, hxs]

/-- Round trip for optional strings. -/
theorem parseOptStr_optStr (o : Option String) : parseOptStr (optStr o) = some o := by
  cases o <;> rfl

/-- Enum string round trips. -/
theorem parseEventType_str (t : EventType) : parseEventType (eventTypeStr t) = some t := by
  cases t <;> rfl

/-- Enum string round trips. -/
theorem parseEventSource_str (s : EventSource) : parseEventSource (eventSourceStr s) = some s := by
  cases s <;> rfl

/-- Enum string round trips. -/
theorem parseRunStatus_str (s : RunStatus) : parseRunStatus (runStatusStr s) = some s := by
  cases s <;> rfl

/-- Round trip for the event serializer. -/
theorem parseEvent_eventToDict (e : SessionEvent) : parseEvent (eventToDict e) = some e := by
  cases e with
  | mk id ts msg task ty src md =>
    simp [eventToDict, parseEvent, parseObjFields, Json.lookup, parseStr,
      parseOptStr_optStr, parseEventType_str, parseEventSource_str]

/-- Round trip for the run serializer. -/
theorem parseRun_runToDict (r : SessionRun) : parseRun (runToDict r) = some r := by
  cases r with
  | mk id st en status md =>
    simp [runToDict, parseRun, parseObjFields, Json.lookup, parseStr,
      parseOptStr_optStr, parseRunStatus_str]

/-- Round trip for the session serializer: model_validate inverts
model_dump. -/
theorem sessionFromDict_sessionToDict (s : Session) :
    sessionFromDict (sessionToDict s) = some s := by
  cases s with
  | mk id md pid children tasks runs events st =>
    simp [sessionToDict, sessionFromDict, parseObjFields, Json.lookup,
      parseStr, parseOptStr_optStr, parseStrList,
      parseList_map parseStr Json.str _ (fun x _ => rfl),
      parseList_map parseRun runToDict _ (fun x _ => parseRun_runToDict x),
      parseList_map parseEvent eventToDict _ (fun x _ => parseEvent_eventToDict x)]

/-- C9: save-then-get round trip. In the in-memory store, getting a
saved session's id returns it. In the file store, getting right after
saving returns it from the write-through cache; and with auto_save set
(the default), even after dropping the cache the session is re-read from
its JSON file and deserializes to an equal session. -/
theorem C9_save_get_roundtrip :
    (∀ (d : List (String × Session)) (s : Session),
      MemoryProvider.get (MemoryProvider.save d s) s.id = some s) ∧
    (∀ (st : FileStore) (s : Session),
      ((st.save s).get s.id).1 = some s) ∧
    (∀ (st : FileStore) (s : Session), st.auto_save = true →
      (((st.save s).clear_cache).get s.id).1 = some s) := by
  refine ⟨?_, ?_, ?_⟩
  · intro d s
    unfold MemoryProvider.get MemoryProvider.save
    rw [dictGet_dictSet]
    simp
  · intro st s
    unfold FileStore.save FileStore.get
    by_cases h : st.auto_save = true <;>
      simp only [h, if_true, if_false, Bool.false_eq_true] <;>
      · rw [dictGet_dictSet]
        simp
  · intro st s h
    unfold FileStore.save FileStore.clear_cache FileStore.get
    simp only [h, if_true]
    simp only [dictGet]
    rw [dictGet_dictSet]
    simp [sessionFromDict_sessionToDict]

/-- Witness for C9_save_get_roundtrip: the file-store round trip through
serialization at a concrete session and empty store. -/
theorem C9_save_get_roundtrip_witness :
    ((((⟨[], [], true⟩ : FileStore).save sessC6).clear_cache).get sessC6.id).1 = some sessC6 :=
  C9_save_get_roundtrip.2.2 ⟨[], [], true⟩ sessC6 rfl

-- ---------------------------------------------------------------------
-- chuk_tool_processor/execution/inprocess_strategy.py and
-- tool_executor.py
-- ---------------------------------------------------------------------

/-- Modelled from the spec: chuk_tool_processor/models/tool_call.py is
not in the source tree. A tool call is a tool name plus structured
arguments (spec section 6 tool registry contract). -/
structure ChukToolCall where
  tool : String
  arguments : Json

/-- Modelled from the spec: chuk_tool_processor/models/tool_result.py is
not in the source tree. A tool result records the tool, its result and
an optional error (spec section 4.4). The machine / pid / timestamp
bookkeeping fields of inprocess_strategy.py do not figure in any claim
and are not modelled. -/
structure ChukToolResult where
  tool : String
  result : Option Json
  error : Option String

/-- Observable outcome of awaiting one registered tool on given
arguments: a value, a raised exception (str(e) = msg), or an
asyncio.TimeoutError from wait_for (which can only arise when a per-call
timeout is configured). A registry is a name-to-implementation lookup
(InMemoryToolRegistry.get_tool). -/
inductive ToolOutcome where
  | ok (v : Json) : ToolOutcome
  | exc (msg : String) : ToolOutcome
  | timedOut : ToolOutcome

/-- Body of the InProcessStrategy.run loop for one call: a missing
tool, a raised exception and a timeout each become a result with error
set; the per-call timeout's display string enters the timeout error
message. -/
def runOneCall (registry : String → Option (Json → ToolOutcome))
    (per_call_timeout : Option String) (call : ChukToolCall) : ChukToolResult :=
  match registry call.tool with
  | none => { tool := call.tool, result := none, error := some "Tool not found" }
  | some impl =>
    match impl call.arguments with
    | .ok v => { tool := call.tool, result := some v, error := none }
    | .exc m => { tool := call.tool, result := none, error := some m }
    | .timedOut =>
      { tool := call.tool, result := none,
        error := some ("Timeout after " ++ per_call_timeout.getD "None" ++ "s") }

/-- InProcessStrategy.run from inprocess_strategy.py: sequential loop
over the calls, one ToolResult appended per call. The per-call timeout
is the override when given, else the strategy default. -/
def InProcessStrategy.run (registry : String → Option (Json → ToolOutcome))
    (default_timeout : Option String) (calls : List ChukToolCall)
    (timeout : Option String) : List ChukToolResult :=
  let per_call_timeout := match timeout with
    | some t => some t
    | none => default_timeout
  calls.map (runOneCall registry per_call_timeout)

/-- ToolExecutor.execute from tool_executor.py with the default
in-process strategy: delegate to InProcessStrategy.run, the executor's
default_timeout standing in when no override is given. -/
def ToolExecutor.execute (registry : String → Option (Json → ToolOutcome))
    (default_timeout : Option String) (calls : List ChukToolCall)
    (timeout : Option String) : List ChukToolResult :=
  InProcessStrategy.run registry default_timeout calls timeout

/-- C5: batch execution is total and shape-preserving. Exactly one
result per request, in request order; a request whose tool is missing
from the registry, raises, or times out yields a result whose error
field is set instead of propagating; a successful request yields its
value with no error. ToolExecutor.execute agrees with the strategy. -/
theorem C5_run_one_result_per_request
    (registry : String → Option (Json → ToolOutcome))
    (default_timeout : Option String) (calls : List ChukToolCall)
    (timeout : Option String) :
    (InProcessStrategy.run registry default_timeout calls timeout).length = calls.length ∧
    ToolExecutor.execute registry default_timeout calls timeout =
      InProcessStrategy.run registry default_timeout calls timeout ∧
    ∀ i call, calls.get? i = some call →
      ∃ r, (InProcessStrategy.run registry default_timeout calls timeout).get? i = some r ∧
        r.tool = call.tool ∧
        (registry call.tool = none → r.result = none ∧ r.error = some "Tool not found") ∧
        (∀ impl, registry call.tool = some impl →
          (∀ v, impl call.arguments = ToolOutcome.ok v → r.result = some v ∧ r.error = none) ∧
          (∀ m, impl call.arguments = ToolOutcome.exc m → r.result = none ∧ r.error = some m) ∧
          (impl call.arguments = ToolOutcome.timedOut → r.result = none ∧ ∃ m, r.error = some m)) := by
  refine ⟨by simp [InProcessStrategy.run], rfl, ?_⟩
  intro i call hcall
  unfold InProcessStrategy.run
  simp only [List.get?_map, hcall, Option.map_some]
  refine ⟨_, rfl, ?_⟩
  unfold runOneCall
  cases hreg : registry call.tool with
  | none => simp
  | some impl =>
    dsimp only
    cases hout : impl call.arguments with
    | ok v =>
      dsimp only
      refine ⟨rfl, by simp, fun impl2 h2 => ?_⟩
      obtain rfl : impl = impl2 := Option.some.inj h2
      refine ⟨fun w hw => ?_, fun m hm => ?_, fun ht => ?_⟩
      · rw [hout] at hw; cases hw; exact ⟨rfl, rfl⟩
      · rw [hout] at hm; cases hm
      · rw [hout] at ht; cases ht
    | exc m =>
      dsimp only
      refine ⟨rfl, by simp, fun impl2 h2 => ?_⟩
      obtain rfl : impl = impl2 := Option.some.inj h2
      refine ⟨fun w hw => ?_, fun m2 hm => ?_, fun ht => ?_⟩
      · rw [hout] at hw; cases hw
      · rw [hout] at hm; cases hm; exact ⟨rfl, rfl⟩
      · rw [hout] at ht; cases ht
    | timedOut =>
      dsimp only
      refine ⟨rfl, by simp, fun impl2 h2 => ?_⟩
      obtain rfl : impl = impl2 := Option.some.inj h2
      refine ⟨fun w hw => ?_, fun m hm => ?_, fun ht => ?_⟩
      · rw [hout] at hw; cases hw
      · rw [hout] at hm; cases hm
      · exact ⟨rfl, ⟨_, rfl⟩⟩

/-- A concrete registry for the C5 witness: one echo tool. -/
def regC5 : String → Option (Json → ToolOutcome) :=
  fun name => if name = "echo" then some (fun args => ToolOutcome.ok args) else none

/-- Witness for C5 at a concrete batch: a missing tool at index 0 of a
two-call batch yields an error result. -/
theorem C5_run_one_result_per_request_witness :
    ∃ r, (InProcessStrategy.run regC5 (some "1.0")
            [⟨"nope", Json.null⟩, ⟨"echo", Json.num 3⟩] none).get? 0 = some r ∧
      r.tool = "nope" ∧
      (regC5 "nope" = none → r.result = none ∧ r.error = some "Tool not found") ∧
      (∀ impl, regC5 "nope" = some impl →
        (∀ v, impl Json.null = ToolOutcome.ok v → r.result = some v ∧ r.error = none) ∧
        (∀ m, impl Json.null = ToolOutcome.exc m → r.result = none ∧ r.error = some m) ∧
        (impl Json.null = ToolOutcome.timedOut → r.result = none ∧ ∃ m, r.error = some m)) :=
  (C5_run_one_result_per_request regC5 (some "1.0")
    [⟨"nope", Json.null⟩, ⟨"echo", Json.num 3⟩] none).2.2 0 ⟨"nope", Json.null⟩ rfl

-- ---------------------------------------------------------------------
-- a2a_session_manager/session_aware_tool_processor.py:
-- SessionAwareToolProcessor.process_llm_message and _get_cache_key.
--
-- The session is threaded as explicit state: SATPState.events is the
-- session's event list (add_event_and_save appends and saves; spec
-- section 3: events are appended through add_event_and_save, never
-- reordered), SATPState.cache is the processor's cache dict. uuid4
-- event ids are modelled by a fresh-id counter. The module-level
-- process_tool_calls that performs the underlying execution is not
-- resolvable in the source tree and is supplied as an oracle: it
-- receives the tool name and raw argument string of the forwarded
-- function payload plus the attempt number, and yields the returned
-- singleton ToolResult, an empty list, or a raised exception.
-- json.loads and the md5 hexdigest are external deterministic
-- functions, supplied as parameters; every theorem holds for all of
-- them.
-- ---------------------------------------------------------------------

/-- json.dumps with sort_keys=True, used to build cache keys: a
deterministic renderer (fields rendered, then sorted). Only its
determinism bears on the claims; the exact concrete syntax does not. -/
def Json.dumps : Json → String
  | .null => "null"
  | .bool true => "true"
  | .bool false => "false"
  | .num n => toString n
  | .str s => "\x22" ++ s ++ "\x22"
  | .arr xs => "[" ++ String.intercalate ", " (xs.attach.map (fun x => Json.dumps x.1)) ++ "]"
  | .obj fs =>
    "\x7b" ++
      String.intercalate ", "
        ((fs.attach.map (fun kv => "\x22" ++ kv.1.1 ++ "\x22: " ++ Json.dumps kv.1.2)).mergeSort
          (fun a b => a ≤ b)) ++ "\x7d"
termination_by j => sizeOf j
decreasing_by
  · have := List.sizeOf_lt_of_mem x.2
    simp only [Json.arr.sizeOf_spec]
    omega
  · obtain ⟨⟨k, v⟩, hmem⟩ := kv
    have h1 := List.sizeOf_lt_of_mem hmem
    simp only [Prod.mk.sizeOf_spec] at h1
    simp only [Json.obj.sizeOf_spec]
    omega

/-- _get_cache_key: md5 hexdigest of tool_name : canonical json of the
args; the hexdigest is the parameter hashFn. -/
def get_cache_key (hashFn : String → String) (tool_name : String) (args : Json) : String :=
  hashFn (tool_name ++ ":" ++ Json.dumps args)

/-- Configuration fields of SessionAwareToolProcessor. retry_delay only
feeds asyncio.sleep and has no observable effect here. max_retries is a
count, hence Nat. -/
structure SATPConfig where
  enable_caching : Bool
  enable_retries : Bool
  max_retries : Nat

/-- Modelled from the spec: the ToolResult record used by
session_aware_tool_processor.py (spec section 4.4: tool, call_id, args,
result, error). -/
structure SATPToolResult where
  tool : String
  call_id : String
  args : Json
  result : Option Json
  error : Option String

/-- Outcome of one invocation of the underlying process_tool_calls: the
first element of the returned list, an empty return (which the code
turns into a ValueError), or a raised exception. -/
inductive PtcOutcome where
  | ok (tr : SATPToolResult) : PtcOutcome
  | emptyList : PtcOutcome
  | raises (msg : String) : PtcOutcome

/-- Processor-visible state: the session's event list, the processor's
cache (key to cached tool_result.result, which may itself be None), the
log of underlying process_tool_calls invocations (tool name, raw
arguments), and the fresh-id counter standing in for uuid4. -/
structure SATPState where
  events : List SessionEvent
  cache : List (String × Option Json)
  execLog : List (String × String)
  nextId : Nat

/-- Next uuid4 stand-in. -/
def freshId (st : SATPState) : String :=
  "evt-" ++ toString st.nextId

/-- session.add_event_and_save: append the event, bump the id counter. -/
def appendEvent (st : SATPState) (e : SessionEvent) : SATPState :=
  { st with events := st.events ++ [e], nextId := st.nextId + 1 }

/-- Cache write-back on success, lines 215-216: when caching holds and
a key was computed, store tool_result.result (even a None result, and
even a result accompanied by an error field, exactly as the source
does). -/
def cacheStore (cfg : SATPConfig) (cacheKey : Option String) (st : SATPState)
    (result : Option Json) : SATPState :=
  if cfg.enable_caching then
    match cacheKey with
    | some k => { st with cache := dictSet st.cache k result }
    | none => st
  else st

/-- cacheStore only touches the cache. -/
theorem cacheStore_events_eq (cfg : SATPConfig) (cacheKey : Option String) (st : SATPState)
    (result : Option Json) : (cacheStore cfg cacheKey st result).events = st.events := by
  unfold cacheStore
  cases cfg.enable_caching <;> cases cacheKey <;> simp

/-- cacheStore only touches the cache. -/
theorem cacheStore_execLog (cfg : SATPConfig) (cacheKey : Option String) (st : SATPState)
    (result : Option Json) : (cacheStore cfg cacheKey st result).execLog = st.execLog := by
  unfold cacheStore
  cases cfg.enable_caching <;> cases cacheKey <;> simp

/-- cacheStore only touches the cache. -/
theorem cacheStore_nextId (cfg : SATPConfig) (cacheKey : Option String) (st : SATPState)
    (result : Option Json) : (cacheStore cfg cacheKey st result).nextId = st.nextId := by
  unfold cacheStore
  cases cfg.enable_caching <;> cases cacheKey <;> simp

/-- The execute-with-retry while loop of process_llm_message, lines
198-294: one iteration per attempt while retries < max_attempts. Fuel
is the number of remaining permitted attempts; calls start with fuel =
max_attempts ≥ 1 and every recursive call keeps fuel = max_attempts -
retries, so the fuel-exhausted branch (the Python loop falling through
with no result appended) is reached only when max_attempts = 0, which
cannot happen for a Nat max_retries. -/
def attemptLoop (cfg : SATPConfig) (exec : String → String → Nat → PtcOutcome)
    (tool_name rawArgs : String) (args : Json) (call_id batchId : String)
    (cacheKey : Option String) (max_attempts : Nat) :
    Nat → Nat → SATPState → SATPState × SATPToolResult
  | 0, _, st =>
    (st, { tool := tool_name, call_id := call_id, args := args, result := none,
           error := some "no attempt permitted" })
  | fuel + 1, retries, st =>
    let st1 : SATPState := { st with execLog := st.execLog ++ [(tool_name, rawArgs)] }
    let outcome : Except String SATPToolResult :=
      match exec tool_name rawArgs (retries + 1) with
      | .ok tr => .ok tr
      | .emptyList => .error ("No result returned for tool " ++ tool_name)
      | .raises m => .error m
    match outcome with
    | .ok tr =>
      let st2 : SATPState := cacheStore cfg cacheKey st1 tr.result
      let evt : SessionEvent :=
        { id := freshId st2, timestamp := "",
          message := .obj [("tool", .str tool_name), ("arguments", args),
                           ("result", optJson tr.result), ("error", optStr tr.error)],
          task_id := none, type := .toolCall, source := .system,
          metadata := [("parent_event_id", .str batchId), ("call_id", .str call_id),
                       ("attempt", .num (retries + 1 : Nat))] }
      (appendEvent st2 evt, tr)
    | .error error_msg =>
      if retries + 1 < max_attempts then
        let evt : SessionEvent :=
          { id := freshId st1, timestamp := "",
            message := .str ("Retry " ++ toString (retries + 1) ++ "/" ++
              toString cfg.max_retries ++ " for tool " ++ tool_name ++ ": " ++ error_msg),
            task_id := none, type := .summary, source := .system,
            metadata := [("parent_event_id", .str batchId), ("call_id", .str call_id),
                         ("attempt", .num (retries + 1 : Nat)), ("retry", .bool true)] }
        attemptLoop cfg exec tool_name rawArgs args call_id batchId cacheKey max_attempts
          fuel (retries + 1) (appendEvent st1 evt)
      else
        let evt : SessionEvent :=
          { id := freshId st1, timestamp := "",
            message := .obj [("tool", .str tool_name), ("arguments", args),
                             ("result", Json.null), ("error", .str error_msg)],
            task_id := none, type := .toolCall, source := .system,
            metadata := [("parent_event_id", .str batchId), ("call_id", .str call_id),
                         ("attempt", .num (retries + 1 : Nat)), ("failed", .bool true)] }
        (appendEvent st1 evt,
         { tool := tool_name, call_id := call_id, args := args, result := none,
           error := some error_msg })

/-- call.get("id", "unknown") of one entry of the tool_calls list. -/
def callId (call : Json) : String :=
  call.getStr "id" "unknown"

/-- function.get("name") of one entry of the tool_calls list. -/
def callToolName (call : Json) : String :=
  (call.get "function" (.obj [])).getStr "name" "unknown"

/-- function.get("arguments", "\x7b\x7d") of one entry (the default is
the two-character string holding an empty JSON object). -/
def callRawArgs (call : Json) : String :=
  (call.get "function" (.obj [])).getStr "arguments" "\x7b\x7d"

/-- json.loads of the raw arguments; a JSONDecodeError preserves the raw
text under raw_arguments. -/
def callArgs (jsonLoads : String → Option Json) (call : Json) : Json :=
  match jsonLoads (callRawArgs call) with
  | some j => j
  | none => .obj [("raw_arguments", .str (callRawArgs call))]

/-- Per-call body of the process_llm_message loop, lines 145-294:
extract the call fields, parse the arguments, probe the cache, and
otherwise run the retry loop. -/
def processOneCall (cfg : SATPConfig) (jsonLoads : String → Option Json)
    (hashFn : String → String) (exec : String → String → Nat → PtcOutcome)
    (batchId : String) (acc : SATPState × List SATPToolResult) (call : Json) :
    SATPState × List SATPToolResult :=
  let st := acc.1
  let call_id := callId call
  let tool_name := callToolName call
  let arguments := callRawArgs call
  let args : Json := callArgs jsonLoads call
  let cacheKey : Option String :=
    if cfg.enable_caching then some (get_cache_key hashFn tool_name args) else none
  let hit : Option (Option Json) :=
    match cacheKey with
    | some k => dictGet st.cache k
    | none => none
  match hit with
  | some cachedResult =>
    let evt : SessionEvent :=
      { id := freshId st, timestamp := "",
        message := .obj [("tool", .str tool_name), ("arguments", args),
                         ("result", optJson cachedResult), ("cached", .bool true)],
        task_id := none, type := .toolCall, source := .system,
        metadata := [("parent_event_id", .str batchId), ("call_id", .str call_id)] }
    (appendEvent st evt,
     acc.2 ++ [{ tool := tool_name, call_id := call_id, args := args,
                 result := cachedResult, error := none }])
  | none =>
    let max_attempts := if cfg.enable_retries then cfg.max_retries + 1 else 1
    let out := attemptLoop cfg exec tool_name arguments args call_id batchId cacheKey
      max_attempts max_attempts 0 st
    (out.1, acc.2 ++ [out.2])

/-- llm_message.get("tool_calls", []): the tool-call entries of the
message, empty when the key is absent (a truthy non-list value, which
would make the Python loop raise, is not modelled). -/
def toolCallsOf (llm_message : Json) : List Json :=
  match llm_message.get "tool_calls" (.arr []) with
  | .arr xs => xs
  | _ => []

/-- SessionAwareToolProcessor.process_llm_message, lines 103-296: append
the batch MESSAGE event with contains_tool_calls metadata, return the
empty result list when the message carries no tool calls, otherwise
process each call in order. The llm_callback parameter is carried but,
as in the source, never invoked. -/
def process_llm_message (cfg : SATPConfig) (jsonLoads : String → Option Json)
    (hashFn : String → String) (exec : String → String → Nat → PtcOutcome)
    (llm_callback : String → Json) (st : SATPState) (llm_message : Json) :
    SATPState × List SATPToolResult :=
  let batchEvt : SessionEvent :=
    { id := freshId st, timestamp := "", message := llm_message,
      task_id := none, type := .message, source := .llm,
      metadata := [("contains_tool_calls", .bool true)] }
  let batchId := batchEvt.id
  let st1 := appendEvent st batchEvt
  let tool_calls : List Json := toolCallsOf llm_message
  if tool_calls.isEmpty then (st1, [])
  else tool_calls.foldl (processOneCall cfg jsonLoads hashFn exec batchId) (st1, [])

/-- C10: an LLM message with an absent or empty tool_calls list still
appends exactly one MESSAGE batch event whose metadata carries
contains_tool_calls = true, performs no underlying tool execution,
leaves the cache alone, returns no results, and is independent of the
llm_callback (which the function never invokes). -/
theorem C10_no_tool_calls_still_batch_event (cfg : SATPConfig)
    (jsonLoads : String → Option Json) (hashFn : String → String)
    (exec : String → String → Nat → PtcOutcome) (cb cb2 : String → Json)
    (st : SATPState) (msg : Json) (h : toolCallsOf msg = []) :
    (process_llm_message cfg jsonLoads hashFn exec cb st msg).2 = [] ∧
    (process_llm_message cfg jsonLoads hashFn exec cb st msg).1.execLog = st.execLog ∧
    (process_llm_message cfg jsonLoads hashFn exec cb st msg).1.cache = st.cache ∧
    (∃ e : SessionEvent,
      (process_llm_message cfg jsonLoads hashFn exec cb st msg).1.events = st.events ++ [e] ∧
      e.type = EventType.message ∧ e.source = EventSource.llm ∧ e.message = msg ∧
      dictGet e.metadata "contains_tool_calls" = some (Json.bool true)) ∧
    process_llm_message cfg jsonLoads hashFn exec cb st msg =
      process_llm_message cfg jsonLoads hashFn exec cb2 st msg := by
  unfold process_llm_message
  simp [h, appendEvent, dictGet]

/-- Witness for C10 at a concrete message without tool calls. -/
theorem C10_no_tool_calls_still_batch_event_witness :
    (process_llm_message ⟨true, true, 2⟩ (fun _ => none) id (fun _ _ _ => PtcOutcome.emptyList)
        (fun _ => Json.null) ⟨[], [], [], 0⟩ (Json.obj [("content", Json.str "hi")])).2 = [] :=
  (C10_no_tool_calls_still_batch_event ⟨true, true, 2⟩ (fun _ => none) id
    (fun _ _ _ => PtcOutcome.emptyList) (fun _ => Json.null) (fun _ => Json.null)
    ⟨[], [], [], 0⟩ (Json.obj [("content", Json.str "hi")]) rfl).1

/-- The retry loop performs at most fuel underlying executions. -/
theorem attemptLoop_execLog_le (cfg : SATPConfig) (exec : String → String → Nat → PtcOutcome)
    (tool_name rawArgs : String) (args : Json) (call_id batchId : String)
    (cacheKey : Option String) (ma : Nat) :
    ∀ (fuel retries : Nat) (st : SATPState),
      ((attemptLoop cfg exec tool_name rawArgs args call_id batchId cacheKey ma
          fuel retries st).1.execLog).length ≤ st.execLog.length + fuel := by
  intro fuel
  induction fuel with
  | zero => intro r st; simp [attemptLoop]
  | succ n ih =>
    intro r st
    unfold attemptLoop
    cases hx : exec tool_name rawArgs (r + 1) with
    | ok tr =>
      dsimp only
      simp [appendEvent, cacheStore_execLog]
    | emptyList =>
      dsimp only
      by_cases hlt : r + 1 < ma
      · rw [if_pos hlt]
        have := ih (r + 1) (appendEvent { st with execLog := st.execLog ++ [(tool_name, rawArgs)] }
          { id := freshId { st with execLog := st.execLog ++ [(tool_name, rawArgs)] },
            timestamp := "",
            message := .str ("Retry " ++ toString (r + 1) ++ "/" ++
              toString cfg.max_retries ++ " for tool " ++ tool_name ++ ": " ++
              ("No result returned for tool " ++ tool_name)),
            task_id := none, type := .summary, source := .system,
            metadata := [("parent_event_id", .str batchId), ("call_id", .str call_id),
                         ("attempt", .num (r + 1 : Nat)), ("retry", .bool true)] })
        simp [appendEvent] at this ⊢
        omega
      · rw [if_neg hlt]
        simp [appendEvent]
    | raises m =>
      dsimp only
      by_cases hlt : r + 1 < ma
      · rw [if_pos hlt]
        have := ih (r + 1) (appendEvent { st with execLog := st.execLog ++ [(tool_name, rawArgs)] }
          { id := freshId { st with execLog := st.execLog ++ [(tool_name, rawArgs)] },
            timestamp := "",
            message := .str ("Retry " ++ toString (r + 1) ++ "/" ++
              toString cfg.max_retries ++ " for tool " ++ tool_name ++ ": " ++ m),
            task_id := none, type := .summary, source := .system,
            metadata := [("parent_event_id", .str batchId), ("call_id", .str call_id),
                         ("attempt", .num (r + 1 : Nat)), ("retry", .bool true)] })
        simp [appendEvent] at this ⊢
        omega
      · rw [if_neg hlt]
        simp [appendEvent]

/-- With exactly one permitted attempt left and no further retry
allowed, the loop performs exactly one underlying execution. -/
theorem attemptLoop_execLog_one (cfg : SATPConfig) (exec : String → String → Nat → PtcOutcome)
    (tool_name rawArgs : String) (args : Json) (call_id batchId : String)
    (cacheKey : Option String) (ma : Nat) (retries : Nat) (st : SATPState)
    (h : ¬ (retries + 1 < ma)) :
    (attemptLoop cfg exec tool_name rawArgs args call_id batchId cacheKey ma
        1 retries st).1.execLog = st.execLog ++ [(tool_name, rawArgs)] := by
  unfold attemptLoop
  cases hx : exec tool_name rawArgs (retries + 1) <;>
    dsimp only <;>
    simp [appendEvent, cacheStore_execLog, h]

/-- Every event the retry loop appends that carries an attempt number
in its metadata keeps it at most ma = retries + fuel. -/
theorem attemptLoop_attempt_le (cfg : SATPConfig) (exec : String → String → Nat → PtcOutcome)
    (tool_name rawArgs : String) (args : Json) (call_id batchId : String)
    (cacheKey : Option String) (ma : Nat) :
    ∀ (fuel retries : Nat) (st : SATPState), retries + fuel = ma →
      ∀ e ∈ (attemptLoop cfg exec tool_name rawArgs args call_id batchId cacheKey ma
          fuel retries st).1.events,
        e ∈ st.events ∨
          (∀ a : Int, dictGet e.metadata "attempt" = some (.num a) → a ≤ (ma : Int)) := by
  intro fuel
  induction fuel with
  | zero =>
    intro r st hr e he
    exact Or.inl (by simpa [attemptLoop] using he)
  | succ n ih =>
    intro r st hr e he
    unfold attemptLoop at he
    cases hx : exec tool_name rawArgs (r + 1) <;> rw [hx] at he <;> dsimp only at he
    case ok tr =>
      rw [appendEvent, cacheStore_events_eq] at he
      simp only [List.mem_append, List.mem_singleton] at he
      rcases he with he | he
      · exact Or.inl (by simpa [appendEvent] using he)
      · refine Or.inr (fun a ha => ?_)
        subst he
        simp [dictGet] at ha
        omega
    case emptyList =>
      by_cases hlt : r + 1 < ma
      · rw [if_pos hlt] at he
        rcases ih (r + 1) _ (by omega) e he with hin | hbound
        · simp only [appendEvent, List.mem_append, List.mem_singleton] at hin
          rcases hin with hin | hin
          · exact Or.inl hin
          · refine Or.inr (fun a ha => ?_)
            subst hin
            simp [dictGet] at ha
            omega
        · exact Or.inr hbound
      · rw [if_neg hlt] at he
        simp only [appendEvent, List.mem_append, List.mem_singleton] at he
        rcases he with he | he
        · exact Or.inl he
        · refine Or.inr (fun a ha => ?_)
          subst he
          simp [dictGet] at ha
          omega
    case raises m =>
      by_cases hlt : r + 1 < ma
      · rw [if_pos hlt] at he
        rcases ih (r + 1) _ (by omega) e he with hin | hbound
        · simp only [appendEvent, List.mem_append, List.mem_singleton] at hin
          rcases hin with hin | hin
          · exact Or.inl hin
          · refine Or.inr (fun a ha => ?_)
            subst hin
            simp [dictGet] at ha
            omega
        · exact Or.inr hbound
      · rw [if_neg hlt] at he
        simp only [appendEvent, List.mem_append, List.mem_singleton] at he
        rcases he with he | he
        · exact Or.inl he
        · refine Or.inr (fun a ha => ?_)
          subst he
          simp [dictGet] at ha
          omega

/-- C4: per tool call, the underlying tool is executed at most
max_retries + 1 times (and so at most max_retries + 1 when retries are
enabled); exactly once when retries are disabled and the call is not
served from the cache; and every event the call appends that records an
attempt number in its metadata keeps it at most max_retries + 1. -/
theorem C4_attempts_bounded (cfg : SATPConfig) (jsonLoads : String → Option Json)
    (hashFn : String → String) (exec : String → String → Nat → PtcOutcome)
    (batchId : String) (acc : SATPState × List SATPToolResult) (call : Json) :
    (processOneCall cfg jsonLoads hashFn exec batchId acc call).1.execLog.length ≤
      acc.1.execLog.length + (cfg.max_retries + 1) ∧
    (cfg.enable_retries = false →
      (cfg.enable_caching = true →
        dictGet acc.1.cache
          (get_cache_key hashFn (callToolName call) (callArgs jsonLoads call)) = none) →
      (processOneCall cfg jsonLoads hashFn exec batchId acc call).1.execLog =
        acc.1.execLog ++ [(callToolName call, callRawArgs call)]) ∧
    (∀ e ∈ (processOneCall cfg jsonLoads hashFn exec batchId acc call).1.events,
      e ∈ acc.1.events ∨
        (∀ a : Int, dictGet e.metadata "attempt" = some (.num a) →
          a ≤ (cfg.max_retries + 1 : Int))) := by
  obtain ⟨ec, er, mr⟩ := cfg
  unfold processOneCall
  dsimp only
  cases ec with
  | false =>
    simp only [Bool.false_eq_true, if_false]
    refine ⟨?_, ?_, ?_⟩
    · have h := attemptLoop_execLog_le ⟨false, er, mr⟩ exec (callToolName call)
        (callRawArgs call) (callArgs jsonLoads call) (callId call) batchId none
        (if er = true then mr + 1 else 1) (if er = true then mr + 1 else 1) 0 acc.1
      cases er <;> simp_all <;> omega
    · intro her _
      subst her
      simp only [Bool.false_eq_true, if_false]
      exact attemptLoop_execLog_one ⟨false, false, mr⟩ exec (callToolName call)
        (callRawArgs call) (callArgs jsonLoads call) (callId call) batchId none 1 0 acc.1
        (by omega)
    · intro e he
      have h := attemptLoop_attempt_le ⟨false, er, mr⟩ exec (callToolName call)
        (callRawArgs call) (callArgs jsonLoads call) (callId call) batchId none
        (if er = true then mr + 1 else 1) (if er = true then mr + 1 else 1) 0 acc.1
        (by omega) e he
      rcases h with h | h
      · exact Or.inl h
      · refine Or.inr (fun a ha => ?_)
        have := h a ha
        cases er <;> simp_all <;> omega
  | true =>
    simp only [if_true]
    cases hhit : dictGet acc.1.cache
        (get_cache_key hashFn (callToolName call) (callArgs jsonLoads call)) with
    | some cached =>
      refine ⟨?_, ?_, ?_⟩
      · simp [appendEvent]
      · intro _ hmiss
        have h1 := hmiss trivial
        simp at h1
      · intro e he
        simp only [appendEvent, List.mem_append, List.mem_singleton] at he
        rcases he with he | he
        · exact Or.inl he
        · refine Or.inr (fun a ha => ?_)
          subst he
          simp [dictGet] at ha
    | none =>
      refine ⟨?_, ?_, ?_⟩
      · have h := attemptLoop_execLog_le ⟨true, er, mr⟩ exec (callToolName call)
          (callRawArgs call) (callArgs jsonLoads call) (callId call) batchId
          (some (get_cache_key hashFn (callToolName call) (callArgs jsonLoads call)))
          (if er = true then mr + 1 else 1) (if er = true then mr + 1 else 1) 0 acc.1
        cases er <;> simp_all <;> omega
      · intro her _
        subst her
        simp only [Bool.false_eq_true, if_false]
        exact attemptLoop_execLog_one ⟨true, false, mr⟩ exec (callToolName call)
          (callRawArgs call) (callArgs jsonLoads call) (callId call) batchId
          (some (get_cache_key hashFn (callToolName call) (callArgs jsonLoads call))) 1 0 acc.1
          (by omega)
      · intro e he
        have h := attemptLoop_attempt_le ⟨true, er, mr⟩ exec (callToolName call)
          (callRawArgs call) (callArgs jsonLoads call) (callId call) batchId
          (some (get_cache_key hashFn (callToolName call) (callArgs jsonLoads call)))
          (if er = true then mr + 1 else 1) (if er = true then mr + 1 else 1) 0 acc.1
          (by omega) e he
        rcases h with h | h
        · exact Or.inl h
        · refine Or.inr (fun a ha => ?_)
          have := h a ha
          cases er <;> simp_all <;> omega

/-- Witness for C4: retries disabled and no cache hit at a concrete call
processes the tool exactly once. -/
theorem C4_attempts_bounded_witness :
    (processOneCall ⟨true, false, 2⟩ (fun _ => some (Json.obj [])) id
        (fun _ _ _ => PtcOutcome.raises "boom") "evt-0" (⟨[], [], [], 1⟩, [])
        (Json.obj [("id", Json.str "c1"),
                   ("function", Json.obj [("name", Json.str "t"),
                                          ("arguments", Json.str "\x7b\x7d")])])).1.execLog =
      [] ++ [(callToolName (Json.obj [("id", Json.str "c1"),
                   ("function", Json.obj [("name", Json.str "t"),
                                          ("arguments", Json.str "\x7b\x7d")])]),
              callRawArgs (Json.obj [("id", Json.str "c1"),
                   ("function", Json.obj [("name", Json.str "t"),
                                          ("arguments", Json.str "\x7b\x7d")])]))] :=
  (C4_attempts_bounded ⟨true, false, 2⟩ (fun _ => some (Json.obj [])) id
    (fun _ _ _ => PtcOutcome.raises "boom") "evt-0" (⟨[], [], [], 1⟩, [])
    (Json.obj [("id", Json.str "c1"),
               ("function", Json.obj [("name", Json.str "t"),
                                      ("arguments", Json.str "\x7b\x7d")])])).2.1 rfl
    (fun _ => rfl)

/-- An LLM message holding exactly one OpenAI-style tool call. -/
def mkSingleCallMsg (call_id tool_name rawArgs : String) : Json :=
  .obj [("tool_calls", .arr [.obj [("id", .str call_id), ("type", .str "function"),
        ("function", .obj [("name", .str tool_name), ("arguments", .str rawArgs)])]])]

/-- json.loads of a raw argument string with the decode-failure
fallback, as the processor applies it. -/
def parsedArgs (jsonLoads : String → Option Json) (rawArgs : String) : Json :=
  match jsonLoads rawArgs with
  | some j => j
  | none => .obj [("raw_arguments", .str rawArgs)]

/-- C3: with caching enabled, processing the same single tool call twice
in succession from a fresh processor, the first execution succeeding,
runs the underlying tool exactly once (one execLog entry over both
calls), appends per call one batch MESSAGE event and one TOOL_CALL event
(so exactly two TOOL_CALL events in total), the second TOOL_CALL event
being marked cached = true and carrying the cached result, which the
second call also returns without invoking the tool again. -/
theorem C3_second_call_cached (er : Bool) (mr : Nat) (jsonLoads : String → Option Json)
    (hashFn : String → String) (exec : String → String → Nat → PtcOutcome)
    (cb : String → Json) (ev0 : List SessionEvent) (n0 : Nat)
    (call_id tool_name rawArgs : String) (tr : SATPToolResult)
    (hexec : exec tool_name rawArgs 1 = PtcOutcome.ok tr) (herr : tr.error = none) :
    process_llm_message ⟨true, er, mr⟩ jsonLoads hashFn exec cb
        (process_llm_message ⟨true, er, mr⟩ jsonLoads hashFn exec cb ⟨ev0, [], [], n0⟩
            (mkSingleCallMsg call_id tool_name rawArgs)).1
        (mkSingleCallMsg call_id tool_name rawArgs) =
      (⟨ev0 ++
          [{ id := "evt-" ++ toString n0, timestamp := "",
             message := mkSingleCallMsg call_id tool_name rawArgs, task_id := none,
             type := EventType.message, source := EventSource.llm,
             metadata := [("contains_tool_calls", Json.bool true)] },
           { id := "evt-" ++ toString (n0 + 1), timestamp := "",
             message := Json.obj [("tool", Json.str tool_name),
               ("arguments", parsedArgs jsonLoads rawArgs),
               ("result", optJson tr.result), ("error", optStr tr.error)],
             task_id := none, type := EventType.toolCall, source := EventSource.system,
             metadata := [("parent_event_id", Json.str ("evt-" ++ toString n0)),
                          ("call_id", Json.str call_id), ("attempt", Json.num 1)] },
           { id := "evt-" ++ toString (n0 + 2), timestamp := "",
             message := mkSingleCallMsg call_id tool_name rawArgs, task_id := none,
             type := EventType.message, source := EventSource.llm,
             metadata := [("contains_tool_calls", Json.bool true)] },
           { id := "evt-" ++ toString (n0 + 3), timestamp := "",
             message := Json.obj [("tool", Json.str tool_name),
               ("arguments", parsedArgs jsonLoads rawArgs),
               ("result", optJson tr.result), ("cached", Json.bool true)],
             task_id := none, type := EventType.toolCall, source := EventSource.system,
             metadata := [("parent_event_id", Json.str ("evt-" ++ toString (n0 + 2))),
                          ("call_id", Json.str call_id)] }],
        [(get_cache_key hashFn tool_name (parsedArgs jsonLoads rawArgs), tr.result)],
        [(tool_name, rawArgs)], n0 + 4⟩,
       [{ tool := tool_name, call_id := call_id, args := parsedArgs jsonLoads rawArgs,
          result := tr.result, error := none }]) ∧
    (process_llm_message ⟨true, er, mr⟩ jsonLoads hashFn exec cb ⟨ev0, [], [], n0⟩
        (mkSingleCallMsg call_id tool_name rawArgs)).2 = [tr] := by
  cases er <;>
    · constructor <;>
      simp [process_llm_message, toolCallsOf, mkSingleCallMsg, processOneCall, callId,
        callToolName, callRawArgs, callArgs, parsedArgs, Json.get, Json.getStr, Json.lookup,
        get_cache_key, attemptLoop, cacheStore, appendEvent, freshId, dictGet, dictSet, hexec]

/-- Concrete successful tool result for the C3 witness. -/
def trC3 : SATPToolResult :=
  { tool := "echo", call_id := "c1", args := Json.obj [], result := some (Json.num 7),
    error := none }

/-- Witness for C3 at a concrete tool and arguments: the first of the
two successive calls returns the executed result. -/
theorem C3_second_call_cached_witness :
    (process_llm_message ⟨true, false, 2⟩ (fun _ => some (Json.obj [])) id
        (fun _ _ _ => PtcOutcome.ok trC3) (fun _ => Json.null) ⟨[], [], [], 0⟩
        (mkSingleCallMsg "c1" "echo" "\x7b\x7d")).2 = [trC3] :=
  (C3_second_call_cached false 2 (fun _ => some (Json.obj [])) id
    (fun _ _ _ => PtcOutcome.ok trC3) (fun _ => Json.null) [] 0 "c1" "echo" "\x7b\x7d" trC3
    rfl rfl).2

-- ---------------------------------------------------------------------
-- a2a_graph graph model and planner (planner.py; the node model
-- models/base.py and the store store/base.py, store/memory.py are
-- imported by it but not in the source tree).
-- ---------------------------------------------------------------------

/-- Modelled from the spec: models/base.py is not in the source tree.
Spec section 3 lists the node kinds. -/
inductive NodeKind where
  | SESSION : NodeKind
  | USER_MSG : NodeKind
  | ASSIST_MSG : NodeKind
  | PLAN : NodeKind
  | PLAN_STEP : NodeKind
  | TOOL_CALL : NodeKind
  | TASK_RUN : NodeKind
  | SUMMARY : NodeKind
deriving DecidableEq, Repr

/-- EdgeKind from models/edges/base.py. -/
inductive EdgeKind where
  | PARENT_CHILD : EdgeKind
  | NEXT : EdgeKind
  | PLAN_LINK : EdgeKind
  | STEP_ORDER : EdgeKind
  | CUSTOM : EdgeKind
deriving DecidableEq, Repr

/-- GraphNode: id, kind and attribute bag (models/base.py, modelled from
the spec; execution.py in the tree confirms the data-bag shape). -/
structure GraphNode where
  id : String
  kind : NodeKind
  data : List (String × Json)

/-- GraphEdge from models/edges/base.py: directed typed link. The uuid
id and the (always empty here) data bag never influence the embedded
code paths and are not carried. -/
structure GraphEdge where
  kind : EdgeKind
  src : String
  dst : String
deriving DecidableEq, Repr

/-- Modelled from the spec: store/base.py and store/memory.py are not in
the source tree. Spec section 4.1: nodes keyed by id, edges queryable by
src and kind. -/
structure GraphStore where
  nodes : List GraphNode
  edges : List GraphEdge

/-- get_node: lookup by id. -/
def GraphStore.get_node (g : GraphStore) (nid : String) : Option GraphNode :=
  g.nodes.find? (fun n => n.id = nid)

/-- add_node. -/
def GraphStore.add_node (g : GraphStore) (n : GraphNode) : GraphStore :=
  { g with nodes := g.nodes ++ [n] }

/-- add_edge. -/
def GraphStore.add_edge (g : GraphStore) (e : GraphEdge) : GraphStore :=
  { g with edges := g.edges ++ [e] }

/-- get_edges(src=, kind=): the edges with the given source and kind, in
insertion order. -/
def GraphStore.get_edges (g : GraphStore) (src : String) (kind : EdgeKind) : List GraphEdge :=
  g.edges.filter (fun e => e.src = src ∧ e.kind = kind)

/-- A step of the plan builder (planner.py _Step) before numbering: the
children lists carry the insertion order; parent links are recovered
during numbering. -/
inductive BStep where
  | mk (title : String) (id : String) (after : List String) (children : List BStep) : BStep

/-- The entry the planner keeps per hierarchical index (the relevant
fields of the _Step object reachable from _index_map). -/
structure StepInfo where
  id : String
  title : String
  after : List String
  parentId : Option String

/-- Plan._assign_indices from planner.py: depth-first numbering; the
children of the root get 1, 2, ...; the k-th child of step p gets p.k.
The resulting index-to-step map has the same bindings as the Python
_index_map (which fills in its stack order); only binding membership is
observable through the claims. -/
def assignChildren (parentId : Option String) (pfx : String) :
    Nat → List BStep → List (String × StepInfo)
  | _, [] => []
  | i, BStep.mk title id after children :: rest =>
    let idx := if pfx = "" then toString i else pfx ++ toString i
    ((idx, ⟨id, title, after, parentId⟩) ::
        assignChildren (some id) (idx ++ ".") 1 children) ++
      assignChildren parentId pfx (i + 1) rest

/-- Plan._persist_step from planner.py: add the PLAN_STEP node, link it
under the plan and (when not a root child) under its parent, and add a
STEP_ORDER edge for every after index resolvable in the index map --
unresolvable indices are silently skipped. -/
def persist_step (planId : String) (imap : List (String × StepInfo)) (g : GraphStore)
    (hindex : String) (info : StepInfo) : GraphStore :=
  let g1 := g.add_node ⟨info.id, .PLAN_STEP,
    [("description", .str info.title), ("index", .str hindex)]⟩
  let g2 := g1.add_edge ⟨.PARENT_CHILD, planId, info.id⟩
  let g3 := match info.parentId with
    | none => g2
    | some pid => g2.add_edge ⟨.PARENT_CHILD, pid, info.id⟩
  info.after.foldl (fun g dep =>
    match dictGet imap dep with
    | some depInfo => g.add_edge ⟨.STEP_ORDER, depInfo.id, info.id⟩
    | none => g) g3

/-- Plan.save from planner.py: number the steps, persist the PLAN node,
every PLAN_STEP node with its PARENT_CHILD edges, then one STEP_ORDER
edge per resolvable after index (unresolvable ones silently skipped; no
failure path exists). Returns the updated store and the index map. -/
def Plan.save (planId : String) (title : String) (root_children : List BStep)
    (g : GraphStore) : GraphStore × List (String × StepInfo) :=
  let imap := assignChildren none "" 1 root_children
  let g1 := g.add_node ⟨planId, .PLAN, [("description", .str title)]⟩
  let g2 := imap.foldl (fun g kv =>
    let g := g.add_node ⟨kv.2.id, .PLAN_STEP,
      [("description", .str kv.2.title), ("index", .str kv.1)]⟩
    let g := g.add_edge ⟨.PARENT_CHILD, planId, kv.2.id⟩
    match kv.2.parentId with
    | none => g
    | some pid => g.add_edge ⟨.PARENT_CHILD, pid, kv.2.id⟩) g1
  let g3 := imap.foldl (fun g kv =>
    kv.2.after.foldl (fun g dep =>
      match dictGet imap dep with
      | some depInfo => g.add_edge ⟨.STEP_ORDER, depInfo.id, kv.2.id⟩
      | none => g) g) g2
  (g3, imap)

/-- Plan.add_step from planner.py: with a truthy parent index that is
not in the index map, raise ValueError; otherwise append the step under
its parent (or the root), give it the next index there, and persist it
immediately. -/
def Plan.add_step (planId : String) (imap : List (String × StepInfo)) (g : GraphStore)
    (title : String) (newId : String) (parent : Option String) (after : List String) :
    Except String (List (String × StepInfo) × GraphStore × String) :=
  let truthy := match parent with
    | none => false
    | some p => p ≠ ""
  if h : truthy = true then
    match parent with
    | none => .error "unreachable"
    | some p =>
      match dictGet imap p with
      | none => .error ("parent index " ++ p ++ " does not exist")
      | some ps =>
        let n := (imap.filter (fun kv => kv.2.parentId = some ps.id)).length + 1
        let hindex := p ++ "." ++ toString n
        let info : StepInfo := ⟨newId, title, after, some ps.id⟩
        let imap2 := imap ++ [(hindex, info)]
        .ok (imap2, persist_step planId imap2 g hindex info, hindex)
  else
    let n := (imap.filter (fun kv => kv.2.parentId = none)).length + 1
    let hindex := toString n
    let info : StepInfo := ⟨newId, title, after, none⟩
    let imap2 := imap ++ [(hindex, info)]
    .ok (imap2, persist_step planId imap2 g hindex info, hindex)

/-- Adding a node never changes the edge list. -/
theorem filter_add_node (g : GraphStore) (n : GraphNode) (P : GraphEdge → Bool) :
    (g.add_node n).edges.filter P = g.edges.filter P := rfl

/-- The STEP_ORDER filter ignores an appended PARENT_CHILD edge. -/
theorem filter_so_add_pc (g : GraphStore) (src dst : String) :
    ((g.add_edge ⟨.PARENT_CHILD, src, dst⟩).edges.filter
        (fun e => e.kind = EdgeKind.STEP_ORDER)) =
      g.edges.filter (fun e => e.kind = EdgeKind.STEP_ORDER) := by
  simp [GraphStore.add_edge]

/-- The node-and-hierarchy pass of Plan.save adds no STEP_ORDER edge. -/
theorem save_fold1_filter_so (planId : String) (imap : List (String × StepInfo)) :
    ∀ g : GraphStore,
      ((imap.foldl (fun g kv =>
          let g := g.add_node ⟨kv.2.id, .PLAN_STEP,
            [("description", .str kv.2.title), ("index", .str kv.1)]⟩
          let g := g.add_edge ⟨.PARENT_CHILD, planId, kv.2.id⟩
          match kv.2.parentId with
          | none => g
          | some pid => g.add_edge ⟨.PARENT_CHILD, pid, kv.2.id⟩) g).edges.filter
        (fun e => e.kind = EdgeKind.STEP_ORDER)) =
      g.edges.filter (fun e => e.kind = EdgeKind.STEP_ORDER) := by
  induction imap with
  | nil => intro g; rfl
  | cons kv rest ih =>
    intro g
    simp only [List.foldl_cons]
    rw [ih]
    cases hp : kv.2.parentId <;>
      simp [GraphStore.add_edge, GraphStore.add_node, hp]

/-- One step's after-resolution pass appends exactly the edges of the
resolvable after indices. -/
theorem after_fold_filter_so (imap : List (String × StepInfo)) (sid : String) :
    ∀ (afters : List String) (g : GraphStore),
      ((afters.foldl (fun g dep =>
          match dictGet imap dep with
          | some depInfo => g.add_edge ⟨.STEP_ORDER, depInfo.id, sid⟩
          | none => g) g).edges.filter (fun e => e.kind = EdgeKind.STEP_ORDER)) =
        g.edges.filter (fun e => e.kind = EdgeKind.STEP_ORDER) ++
          afters.filterMap (fun dep =>
            (dictGet imap dep).map (fun depInfo => GraphEdge.mk .STEP_ORDER depInfo.id sid)) := by
  intro afters
  induction afters with
  | nil => intro g; simp
  | cons dep rest ih =>
    intro g
    simp only [List.foldl_cons, List.filterMap_cons]
    cases hd : dictGet imap dep with
    | none => simp [hd, ih]
    | some depInfo =>
      simp only [hd, Option.map_some]
      rw [ih]
      simp [GraphStore.add_edge]

/-- The dependency pass of Plan.save appends exactly the edges of the
resolvable after indices of every step. -/
theorem save_fold2_filter_so (imap : List (String × StepInfo)) :
    ∀ (entries : List (String × StepInfo)) (g : GraphStore),
      ((entries.foldl (fun g kv =>
          kv.2.after.foldl (fun g dep =>
            match dictGet imap dep with
            | some depInfo => g.add_edge ⟨.STEP_ORDER, depInfo.id, kv.2.id⟩
            | none => g) g) g).edges.filter (fun e => e.kind = EdgeKind.STEP_ORDER)) =
        g.edges.filter (fun e => e.kind = EdgeKind.STEP_ORDER) ++
          entries.flatMap (fun kv =>
            kv.2.after.filterMap (fun dep =>
              (dictGet imap dep).map
                (fun depInfo => GraphEdge.mk .STEP_ORDER depInfo.id kv.2.id))) := by
  intro entries
  induction entries with
  | nil => intro g; simp
  | cons kv rest ih =>
    intro g
    simp only [List.foldl_cons, List.flatMap_cons]
    rw [ih, after_fold_filter_so]
    simp

/-- C7 amended: add_step with a truthy parent index missing from the
index map fails with the ValueError naming the parent (InvalidReference);
but an after index that is not defined raises nothing: Plan.save always
succeeds and its STEP_ORDER edges are exactly those of the after
references resolvable in the index map -- unresolved dependencies are
silently dropped. -/
theorem C7_unknown_parent_fails_unknown_after_skipped :
    (∀ (planId : String) (imap : List (String × StepInfo)) (g : GraphStore)
        (title newId p : String) (after : List String),
      p ≠ "" → dictGet imap p = none →
        Plan.add_step planId imap g title newId (some p) after =
          Except.error ("parent index " ++ p ++ " does not exist")) ∧
    (∀ (planId title : String) (children : List BStep) (g : GraphStore),
      ((Plan.save planId title children g).1.edges.filter
          (fun e => e.kind = EdgeKind.STEP_ORDER)) =
        g.edges.filter (fun e => e.kind = EdgeKind.STEP_ORDER) ++
          (assignChildren none "" 1 children).flatMap (fun kv =>
            kv.2.after.filterMap (fun dep =>
              (dictGet (assignChildren none "" 1 children) dep).map
                (fun depInfo => GraphEdge.mk .STEP_ORDER depInfo.id kv.2.id)))) := by
  constructor
  · intro planId imap g title newId p after hp hmap
    simp only [Plan.add_step]
    rw [dif_pos (by simp [hp])]
    simp [hmap]
  · intro planId title children g
    unfold Plan.save
    rw [save_fold2_filter_so, save_fold1_filter_so, filter_add_node]

/-- Witness for the amended C7 at a concrete unknown parent index. -/
theorem C7_unknown_parent_fails_witness :
    Plan.add_step "plan-1" [] ⟨[], []⟩ "t" "sid-9" (some "3") [] =
      Except.error ("parent index " ++ "3" ++ " does not exist") :=
  C7_unknown_parent_fails_unknown_after_skipped.1 "plan-1" [] ⟨[], []⟩ "t" "sid-9" "3" []
    (by decide) rfl

/-- C7 counterexample: a plan whose only step lists the undefined after
index 7 saves without any failure, and the saved graph simply has no
STEP_ORDER edge; a subsequent add_step with the undefined after index 9
also succeeds. No UnresolvedDependency error exists. -/
theorem C7_counterexample :
    ((Plan.save "plan-1" "Demo" [BStep.mk "s" "sid-1" ["7"] []] ⟨[], []⟩).1.edges.filter
        (fun e => e.kind = EdgeKind.STEP_ORDER) = []) ∧
    ((Plan.add_step "plan-1"
        (Plan.save "plan-1" "Demo" [BStep.mk "s" "sid-1" ["7"] []] ⟨[], []⟩).2
        (Plan.save "plan-1" "Demo" [BStep.mk "s" "sid-1" ["7"] []] ⟨[], []⟩).1
        "t2" "sid-2" none ["9"]).isOk = true) := by
  constructor
  · simp only [Plan.save, assignChildren]
    decide
  · simp only [Plan.add_step, Plan.save, assignChildren]
    rfl

-- ---------------------------------------------------------------------
-- plan_executor.py PlanExecutor.determine_execution_order and
-- processor.py GraphAwareToolProcessor._determine_execution_order.
-- Both build the same two maps over the STEP_ORDER edges whose source
-- is a step of the plan (prerequisites keyed by dependent; dependents
-- keyed by prerequisite) and run the same level-by-level Kahn loop;
-- processor.py merely swaps the two dict names and uses set.remove
-- where plan_executor.py uses set.discard (both erase the element,
-- which in these runs is present). Python set iteration order is
-- unspecified; the embedding fixes first-insertion order, which no
-- checked property depends on. The Python while loop has no bound; the
-- fuel steps.length + 1 caps the iterations, and the proofs for acyclic
-- inputs show the loop exits through the empty-ready branch before the
-- fuel does, so the cap never truncates a terminating run they speak
-- about.
-- ---------------------------------------------------------------------

/-- The (prerequisite, dependent) pairs the loop over the steps reads
from the store: one per STEP_ORDER edge going out of a step. -/
def stepOrderPairs (g : GraphStore) (steps : List GraphNode) : List (String × String) :=
  steps.flatMap (fun s => (g.get_edges s.id .STEP_ORDER).map (fun e => (s.id, e.dst)))

/-- The dependencies dict: for each step id, the set of its
prerequisites (sources of STEP_ORDER edges into it). -/
def depsMap (ids : List String) (prs : List (String × String)) : String → List String :=
  fun d => if d ∈ ids then ((prs.filter (fun p => p.2 = d)).map (fun p => p.1)).dedup else []

/-- The dependents dict: for each step id, the set of steps blocked on
it (targets of STEP_ORDER edges out of it). -/
def dependentsMap (prs : List (String × String)) : String → List String :=
  fun s => ((prs.filter (fun p => p.1 = s)).map (fun p => p.2)).dedup

/-- One ready step's inner loop: discard it from each dependent's
prerequisite set, collecting dependents that become unblocked. -/
def runStep (dependents : String → List String) (acc : (String → List String) × List String)
    (sid : String) : (String → List String) × List String :=
  (dependents sid).foldl (fun acc2 d =>
    let newd := (acc2.1 d).erase sid
    (fun x => if x = d then newd else acc2.1 x,
     if newd = [] then acc2.2 ++ [d] else acc2.2)) acc

/-- One batch: process every ready step, yielding the updated
prerequisite map and the next ready list. -/
def processBatch (dependents : String → List String) (deps : String → List String)
    (ready : List String) : (String → List String) × List String :=
  ready.foldl (runStep dependents) (deps, [])

/-- The while loop: emit the ready batch, compute the next, repeat. -/
def kahnLoop (dependents : String → List String) :
    Nat → (String → List String) → List String → List (List String)
  | 0, _, _ => []
  | fuel + 1, deps, ready =>
    if ready.isEmpty then []
    else
      let p := processBatch dependents deps ready
      ready :: kahnLoop dependents fuel p.1 p.2

/-- PlanExecutor.determine_execution_order from plan_executor.py. -/
def PlanExecutor.determine_execution_order (g : GraphStore) (steps : List GraphNode) :
    List (List String) :=
  let ids := steps.map (fun s => s.id)
  let prs := stepOrderPairs g steps
  let deps := depsMap ids prs
  let ready1 := ids.filter (fun s => deps s = [])
  let ready := match ids with
    | [] => ready1
    | h :: _ => if ready1.isEmpty then [h] else ready1
  kahnLoop (dependentsMap prs) (steps.length + 1) deps ready

/-- The processor's `dependents` dict: for each edge destination, the
set of steps with a STEP_ORDER edge into it. Unlike plan_executor's
`dependencies` dict it is keyed by edge destinations (created on
demand), so an edge target outside the plan gets an entry instead of a
KeyError; a key never inserted reads as the empty set. -/
def GraphAwareToolProcessor.dependents (prs : List (String × String)) (d : String) :
    List String :=
  ((prs.filter (fun p => p.2 = d)).map (fun p => p.1)).dedup

/-- GraphAwareToolProcessor._determine_execution_order from
processor.py: the same Kahn computation as plan_executor's (its
`dependencies` dict is the dependents map above and its `dependents`
dict the map just defined), except that its no-ready-steps fallback
`no_dependencies = [steps[0].id]` lacks plan_executor's `and steps`
guard: on an empty steps list `steps[0]` raises IndexError. The while
loop is fueled by steps.length + 1, which covers every terminating
run; on the fallback path, where the Python can also raise KeyError
from `set.remove` or fail to terminate, the fuel simply runs out. -/
def GraphAwareToolProcessor.determine_execution_order (g : GraphStore)
    (steps : List GraphNode) : Except String (List (List String)) :=
  let ids := steps.map (fun s => s.id)
  let prs := stepOrderPairs g steps
  let no_dependencies1 :=
    ids.filter (fun s => GraphAwareToolProcessor.dependents prs s = [])
  if no_dependencies1.isEmpty then
    match steps with
    | [] => .error "IndexError: list index out of range"
    | s0 :: _ =>
      .ok (kahnLoop (dependentsMap prs) (steps.length + 1)
        (GraphAwareToolProcessor.dependents prs) [s0.id])
  else
    .ok (kahnLoop (dependentsMap prs) (steps.length + 1)
      (GraphAwareToolProcessor.dependents prs) no_dependencies1)

/-- Closed form of the inner discard loop over a duplicate-free list:
the prerequisite sets of the dependents lose sid, and exactly the
dependents whose set empties get appended, in order, once each. -/
theorem runStep_fold_closed (sid : String) :
    ∀ (ds : List String), ds.Nodup → ∀ (f : String → List String) (n : List String),
      (ds.foldl (fun (acc2 : (String → List String) × List String) d =>
        let newd := (acc2.1 d).erase sid
        (fun x => if x = d then newd else acc2.1 x,
         if newd = [] then acc2.2 ++ [d] else acc2.2)) (f, n)) =
      (fun x => if x ∈ ds then (f x).erase sid else f x,
       n ++ ds.filter (fun d => decide ((f d).erase sid = []))) := by
  intro ds
  induction ds with
  | nil =>
    intro _ f n
    simp only [List.foldl_nil, List.filter_nil, List.append_nil]
    refine Prod.ext ?_ rfl
    funext x
    simp
  | cons d rest ih =>
    intro hnd f n
    have hdrest : d ∉ rest := (List.nodup_cons.mp hnd).1
    have hrest : rest.Nodup := (List.nodup_cons.mp hnd).2
    simp only [List.foldl_cons]
    rw [ih hrest]
    refine Prod.ext ?_ ?_
    · funext x
      by_cases hx : x ∈ rest
      · have hxd : ¬ (x = d) := fun hh => hdrest (hh ▸ hx)
        simp [hx, hxd, List.mem_cons]
      · by_cases hxd : x = d
        · subst hxd
          simp [hx, List.mem_cons]
        · simp [hx, hxd, List.mem_cons]
    · have hcong : rest.filter
          (fun e => decide (((fun x => if x = d then (f d).erase sid else f x) e).erase sid = [])) =
          rest.filter (fun e => decide ((f e).erase sid = [])) := by
        refine List.filter_congr ?_
        intro e he
        have hne : ¬ (e = d) := fun hh => hdrest (hh ▸ he)
        simp [hne]
      rw [hcong, List.filter_cons]
      by_cases hfd : (f d).erase sid = [] <;> simp [hfd]

/-- The same closed form stated for runStep. -/
theorem runStep_closed (dependents : String → List String) (sid : String)
    (hnd : (dependents sid).Nodup) (f : String → List String) (n : List String) :
    runStep dependents (f, n) sid =
      (fun x => if x ∈ dependents sid then (f x).erase sid else f x,
       n ++ (dependents sid).filter (fun d => decide ((f d).erase sid = []))) := by
  unfold runStep
  exact runStep_fold_closed sid (dependents sid) hnd f n

/-- The dependents map always yields duplicate-free lists. -/
theorem dependentsMap_nodup (prs : List (String × String)) (s : String) :
    (dependentsMap prs s).Nodup :=
  List.nodup_dedup _

/-- Membership in the dependents map is edge membership. -/
theorem mem_dependentsMap (prs : List (String × String)) (s d : String) :
    d ∈ dependentsMap prs s ↔ (s, d) ∈ prs := by
  unfold dependentsMap
  rw [List.mem_dedup, List.mem_map]
  constructor
  · rintro ⟨p, hp, rfl⟩
    have := List.of_mem_filter hp
    have hmem := List.mem_of_mem_filter hp
    simp at this
    cases p
    simp_all
  · intro h
    exact ⟨(s, d), List.mem_filter.mpr ⟨h, by simp⟩, rfl⟩

/-- Membership in the prerequisite map is edge membership, for a step
of the plan. -/
theorem mem_depsMap (ids : List String) (prs : List (String × String)) (d x : String)
    (hd : d ∈ ids) : x ∈ depsMap ids prs d ↔ (x, d) ∈ prs := by
  unfold depsMap
  rw [if_pos hd, List.mem_dedup, List.mem_map]
  constructor
  · rintro ⟨p, hp, rfl⟩
    have := List.of_mem_filter hp
    have hmem := List.mem_of_mem_filter hp
    simp at this
    cases p
    simp_all
  · intro h
    exact ⟨(x, d), List.mem_filter.mpr ⟨h, by simp⟩, rfl⟩

/-- The generalized batch fold over any remaining ready list keeps a
prerequisite that is not among the processed ready steps. -/
theorem processBatch_fold_kept (dependents : String → List String) (ready : List String)
    (hnd : ∀ s, (dependents s).Nodup) (x d : String) :
    ∀ acc : (String → List String) × List String, x ∈ acc.1 d → x ∉ ready →
      x ∈ (ready.foldl (runStep dependents) acc).1 d := by
  induction ready with
  | nil => intro acc hx _; exact hx
  | cons sid rest ih =>
    intro acc hx hxr
    have hxs : ¬ (x = sid) := fun hh => hxr (by simp [hh])
    have hxrest : x ∉ rest := fun hh => hxr (by simp [hh])
    simp only [List.foldl_cons]
    refine ih _ ?_ hxrest
    obtain ⟨f, n⟩ := acc
    rw [runStep_closed dependents sid (hnd sid)]
    by_cases hdd : d ∈ dependents sid
    · simp only [hdd, if_pos]
      exact (List.mem_erase_of_ne hxs).mpr hx
    · simp only [hdd, if_neg]
      exact hx

/-- Surviving a batch: a prerequisite that is not among the processed
ready steps is never discarded. -/
theorem processBatch_mem_kept (dependents deps : String → List String) (ready : List String)
    (hnd : ∀ s, (dependents s).Nodup) (x d : String) (hx : x ∈ deps d) (hxr : x ∉ ready) :
    x ∈ (processBatch dependents deps ready).1 d :=
  processBatch_fold_kept dependents ready hnd x d (deps, []) hx hxr

/-- Every step the batch reports ready has an emptied prerequisite
set. -/
theorem processBatch_fold_next_empty (dependents : String → List String) (ready : List String)
    (hnd : ∀ s, (dependents s).Nodup) :
    ∀ acc : (String → List String) × List String, (∀ d ∈ acc.2, acc.1 d = []) →
      ∀ d ∈ (ready.foldl (runStep dependents) acc).2,
        (ready.foldl (runStep dependents) acc).1 d = [] := by
  induction ready with
  | nil => intro acc h; exact h
  | cons sid rest ih =>
    intro acc hacc
    simp only [List.foldl_cons]
    refine ih _ ?_
    obtain ⟨f, n⟩ := acc
    rw [runStep_closed dependents sid (hnd sid)]
    intro d hd
    simp only [List.mem_append] at hd
    by_cases hdd : d ∈ dependents sid
    · simp only [hdd, if_pos]
      rcases hd with hd | hd
      · have h0 : f d = [] := hacc d hd
        rw [h0]
        rfl
      · have := List.of_mem_filter hd
        simpa using this
    · simp only [hdd, if_neg]
      rcases hd with hd | hd
      · exact hacc d hd
      · exact absurd (List.mem_of_mem_filter hd) hdd

/-- Every step the batch reports ready has an emptied prerequisite
set. -/
theorem processBatch_next_empty (dependents deps : String → List String) (ready : List String)
    (hnd : ∀ s, (dependents s).Nodup) :
    ∀ d ∈ (processBatch dependents deps ready).2,
      (processBatch dependents deps ready).1 d = [] :=
  processBatch_fold_next_empty dependents ready hnd (deps, []) (by intro d hd; cases hd)

/-- The Kahn loop never schedules a member of a set in which every
member has a prerequisite, as long as the loop state keeps that set
blocked. -/
theorem kahnLoop_blocked (dependents : String → List String) (C : List String)
    (hnd : ∀ s, (dependents s).Nodup) :
    ∀ (fuel : Nat) (deps : String → List String) (ready : List String),
      (∀ d ∈ C, ∃ p ∈ C, p ∈ deps d) → (∀ s ∈ ready, s ∉ C) →
      ∀ d ∈ C, ∀ batch ∈ kahnLoop dependents fuel deps ready, d ∉ batch := by
  intro fuel
  induction fuel with
  | zero => intro deps ready _ _ d _ batch hb; cases hb
  | succ n ih =>
    intro deps ready hdeps hready d hd batch hb
    unfold kahnLoop at hb
    by_cases he : ready.isEmpty
    · rw [if_pos he] at hb
      cases hb
    · rw [if_neg he] at hb
      simp only [List.mem_cons] at hb
      rcases hb with rfl | hb
      · exact fun hdb => hready d hdb hd
      · have hdeps2 : ∀ e ∈ C, ∃ p ∈ C, p ∈ (processBatch dependents deps ready).1 e := by
          intro e he2
          obtain ⟨p, hpC, hpd⟩ := hdeps e he2
          exact ⟨p, hpC, processBatch_mem_kept dependents deps ready hnd p e hpd
            (fun hh => hready p hh hpC)⟩
        have hready2 : ∀ s ∈ (processBatch dependents deps ready).2, s ∉ C := by
          intro s hs hsC
          obtain ⟨p, _, hp⟩ := hdeps2 s hsC
          rw [processBatch_next_empty dependents deps ready hnd s hs] at hp
          cases hp
        exact ih _ _ hdeps2 hready2 d hd batch hb

/-- C2 amended: the executor raises no CyclicPlan error. On a plan
whose STEP_ORDER graph contains a cycle, the cycle's steps (any
nonempty set of steps each having a prerequisite inside the set) simply
never appear in any batch of the schedule, provided some step of the
plan has no prerequisite at all (so the first-step fallback is not
taken); execution proceeds with the remaining steps. -/
theorem C2_cyclic_steps_never_scheduled (g : GraphStore) (steps : List GraphNode)
    (C : List String)
    (hCin : ∀ d ∈ C, d ∈ steps.map (fun s => s.id))
    (hCcyc : ∀ d ∈ C, ∃ p ∈ C, (p, d) ∈ stepOrderPairs g steps)
    (hsrc : ∃ s ∈ steps.map (fun s => s.id),
      depsMap (steps.map (fun s => s.id)) (stepOrderPairs g steps) s = []) :
    ∀ d ∈ C, ∀ batch ∈ PlanExecutor.determine_execution_order g steps, d ∉ batch := by
  intro d hd batch hb
  unfold PlanExecutor.determine_execution_order at hb
  have hdeps0 : ∀ e ∈ C, ∃ p ∈ C,
      p ∈ depsMap (steps.map (fun s => s.id)) (stepOrderPairs g steps) e := by
    intro e he
    obtain ⟨p, hpC, hpe⟩ := hCcyc e he
    exact ⟨p, hpC, (mem_depsMap _ _ e p (hCin e he)).mpr hpe⟩
  have hready1ne : (steps.map (fun s => s.id)).filter
      (fun s => depsMap (steps.map (fun s => s.id)) (stepOrderPairs g steps) s = []) ≠ [] := by
    obtain ⟨s, hs, hempty⟩ := hsrc
    intro hnil
    have : s ∈ (steps.map (fun s => s.id)).filter
        (fun s => depsMap (steps.map (fun s => s.id)) (stepOrderPairs g steps) s = []) :=
      List.mem_filter.mpr ⟨hs, by simp [hempty]⟩
    rw [hnil] at this
    cases this
  have hreadyC : ∀ s, s ∈ (steps.map (fun s => s.id)).filter
      (fun s => depsMap (steps.map (fun s => s.id)) (stepOrderPairs g steps) s = []) →
      s ∉ C := by
    intro s hs hsC
    have hsp := List.of_mem_filter hs
    obtain ⟨p, _, hp⟩ := hdeps0 s hsC
    simp at hsp
    rw [hsp] at hp
    cases hp
  cases hsteps : steps with
  | nil =>
    subst hsteps
    obtain ⟨s, hs, _⟩ := hsrc
    simp at hs
  | cons s0 rest =>
    subst hsteps
    simp only [List.map_cons] at hb hready1ne hreadyC hdeps0
    rw [if_neg (by simpa [List.isEmpty_iff] using hready1ne)] at hb
    exact kahnLoop_blocked _ C (fun s => dependentsMap_nodup _ s) _ _ _
      hdeps0 hreadyC d hd batch hb

-- ---------------------------------------------------------------------
-- processor.py GraphAwareToolProcessor.process_plan and its helpers.
-- The session is threaded as ProcState (events, runs, the processor
-- cache, the graph store, a fresh-uuid counter). asyncio.gather over a
-- batch is serialised in batch order (concurrent siblings interleave
-- their events arbitrarily in reality; no checked property depends on
-- the interleaving). The json.dumps / json.loads round trip between
-- _execute_step and _process_single_tool_call is the identity of the
-- json library and the arguments are passed structured.
-- ---------------------------------------------------------------------

/-- The ToolResult model of chuk_tool_processor as processor.py uses
it. Modelled from the spec (section 4.4), its module being absent from
the source tree. -/
structure PToolResult where
  id : String
  tool : String
  args : Json
  result : Option Json
  error : Option String

/-- State visible to the graph-aware processor. -/
structure ProcState where
  events : List SessionEvent
  runs : List SessionRun
  cache : List (String × Json)
  graph : GraphStore
  nextId : Nat

/-- uuid4 stand-in. -/
def procFresh (st : ProcState) : String :=
  "uid-" ++ toString st.nextId

/-- _create_child_event from processor.py: a system event whose
metadata carries parent_event_id, appended and saved. -/
def create_child_event (st : ProcState) (ty : EventType) (msg : Json) (parent_id : String) :
    ProcState × String :=
  let eid := procFresh st
  let evt : SessionEvent :=
    { id := eid, timestamp := "", message := msg, task_id := none,
      type := ty, source := EventSource.system,
      metadata := [("parent_event_id", Json.str parent_id)] }
  ({ st with events := st.events ++ [evt], nextId := st.nextId + 1 }, eid)

/-- _create_tool_call_node and _create_task_run_node from processor.py:
a TOOL_CALL node with the call's data, a TASK_RUN node with the
outcome, each linked by a PARENT_CHILD edge. -/
def create_tool_nodes (st : ProcState) (tool_name : String) (args : Json)
    (result : Option Json) (error : Option String) (is_cached : Bool)
    (runSuccess : Bool) (runError : Option String) (assistant_node_id : String) : ProcState :=
  let toolId := procFresh st
  let st1 : ProcState := { st with
    graph := ((st.graph.add_node
      { id := toolId, kind := .TOOL_CALL,
        data := [("name", Json.str tool_name), ("args", args), ("result", optJson result),
                 ("error", optStr error), ("cached", Json.bool is_cached)] }).add_edge
      { kind := .PARENT_CHILD, src := assistant_node_id, dst := toolId }),
    nextId := st.nextId + 1 }
  let runId := procFresh st1
  { st1 with
    graph := ((st1.graph.add_node
      { id := runId, kind := .TASK_RUN,
        data := [("success", Json.bool runSuccess), ("error", optStr runError),
                 ("timestamp", Json.str "")] }).add_edge
      { kind := .PARENT_CHILD, src := toolId, dst := runId }),
    nextId := st1.nextId + 1 }

/-- _process_single_tool_call from processor.py: cache probe (keyed by
tool name and canonical args, no hashing here), then execution; a tool
failure is returned as a result with error set (the enable_retries
block is a no-op pass); an unknown tool raises -- and the except
handler's reference to the undefined name parent_id raises in turn, so
no error event is appended and the exception propagates. -/
def proc_process_single_tool_call (enable_caching : Bool)
    (registry : String → Option (Json → Except String Json)) (st : ProcState)
    (call_id tool_name : String) (args : Json) (parent_event_id : String)
    (assistant_node_id : Option String) : ProcState × Except String PToolResult :=
  let cacheKey : Option String :=
    if enable_caching then some (tool_name ++ ":" ++ Json.dumps args) else none
  let hit : Option Json := match cacheKey with
    | some k => dictGet st.cache k
    | none => none
  match hit with
  | some cached =>
    let p := create_child_event st .toolCall
      (.obj [("tool", .str tool_name), ("args", args), ("result", cached),
             ("cached", .bool true)]) parent_event_id
    let st2 := match assistant_node_id with
      | some aid =>
        create_tool_nodes p.1 tool_name args (some cached) none true true
          (some "Cached result used") aid
      | none => p.1
    (st2, .ok { id := call_id, tool := tool_name, args := args, result := some cached,
                error := none })
  | none =>
    match registry tool_name with
    | none => (st, .error ("Unknown tool: " ++ tool_name))
    | some tool_fn =>
      match tool_fn args with
      | .ok result =>
        let st1 : ProcState := match cacheKey with
          | some k => if enable_caching then { st with cache := dictSet st.cache k result }
                      else st
          | none => st
        let p := create_child_event st1 .toolCall
          (.obj [("tool", .str tool_name), ("args", args), ("result", result),
                 ("error", Json.null)]) parent_event_id
        let st3 := match assistant_node_id with
          | some aid => create_tool_nodes p.1 tool_name args (some result) none false true none aid
          | none => p.1
        (st3, .ok { id := call_id, tool := tool_name, args := args, result := some result,
                    error := none })
      | .error e =>
        let p := create_child_event st .toolCall
          (.obj [("tool", .str tool_name), ("args", args), ("result", Json.null),
                 ("error", .str e)]) parent_event_id
        let st3 := match assistant_node_id with
          | some aid => create_tool_nodes p.1 tool_name args none (some e) false false (some e) aid
          | none => p.1
        (st3, .ok { id := call_id, tool := tool_name, args := args, result := none,
                    error := some e })

/-- The loop of _execute_step over the step's PLAN_LINK edges: issue
each linked TOOL_CALL node, stopping at the first raised exception. -/
def proc_run_tool_edges (enable_caching : Bool)
    (registry : String → Option (Json → Except String Json))
    (assistant_node_id : Option String) (step_evt_id : String) :
    List GraphEdge → ProcState → ProcState × Except String (List PToolResult)
  | [], st => (st, .ok [])
  | e :: rest, st =>
    match st.graph.get_node e.dst with
    | none => proc_run_tool_edges enable_caching registry assistant_node_id step_evt_id rest st
    | some tn =>
      if tn.kind = NodeKind.TOOL_CALL then
        let tname := match dictGet tn.data "name" with
          | some (.str s) => s
          | _ => ""
        let targs := (dictGet tn.data "args").getD (.obj [])
        match proc_process_single_tool_call enable_caching registry st tn.id tname targs
            step_evt_id assistant_node_id with
        | (st2, .error m) => (st2, .error m)
        | (st2, .ok r) =>
          match proc_run_tool_edges enable_caching registry assistant_node_id step_evt_id
              rest st2 with
          | (st3, .ok rs) => (st3, .ok (r :: rs))
          | (st3, .error m) => (st3, .error m)
      else proc_run_tool_edges enable_caching registry assistant_node_id step_evt_id rest st

/-- _execute_step from processor.py: validate the step node, emit the
started SUMMARY, run the linked tool calls, then emit the completed
SUMMARY (or the failure event and re-raise). -/
def proc_execute_step (enable_caching : Bool)
    (registry : String → Option (Json → Except String Json)) (st : ProcState)
    (step_id : String) (assistant_node_id : Option String) (parent_event_id : String) :
    ProcState × Except String (List PToolResult) :=
  match st.graph.get_node step_id with
  | none => (st, .error ("Invalid plan step: " ++ step_id))
  | some node =>
    if node.kind = NodeKind.PLAN_STEP then
      let desc := (dictGet node.data "description").getD (.str "Unknown step")
      let p := create_child_event st .summary
        (.obj [("step_id", .str step_id), ("description", desc), ("status", .str "started")])
        parent_event_id
      let tool_edges := p.1.graph.get_edges step_id .PLAN_LINK
      match proc_run_tool_edges enable_caching registry assistant_node_id p.2 tool_edges p.1 with
      | (st2, .ok results) =>
        let q := create_child_event st2 .summary
          (.obj [("step_id", .str step_id), ("status", .str "completed"),
                 ("tools_executed", .num results.length)]) parent_event_id
        (q.1, .ok results)
      | (st2, .error m) =>
        let q := create_child_event st2 .message
          (.obj [("step_id", .str step_id), ("error", .str m), ("status", .str "failed")])
          parent_event_id
        (q.1, .error m)
    else (st, .error ("Invalid plan step: " ++ step_id))

/-- The sort key of _get_plan_steps: the index attribute (the Python
default 0 would make a mixed-type comparison raise; every persisted
step carries a string index, and a missing one is modelled as ""). -/
def stepIndexKey (n : GraphNode) : String :=
  match dictGet n.data "index" with
  | some (.str s) => s
  | _ => ""

/-- Lexicographic code-point comparison of character lists, the order
Python uses when comparing the string index keys. -/
def strLtb : List Char → List Char → Bool
  | [], [] => false
  | [], _ :: _ => true
  | _ :: _, [] => false
  | a :: as, b :: bs =>
    if a.toNat < b.toNat then true
    else if b.toNat < a.toNat then false
    else strLtb as bs

/-- Python's string less-than on the index keys. -/
def stepKeyLt (a b : String) : Bool := strLtb a.data b.data

/-- Stable insertion into a key-sorted list: skip only strictly smaller
keys, so equal keys keep their original relative order, as Python's
stable sort does. -/
def insertByKey (x : GraphNode) : List GraphNode → List GraphNode
  | [] => [x]
  | y :: ys =>
    if stepKeyLt (stepIndexKey y) (stepIndexKey x) then
      y :: insertByKey x ys
    else x :: y :: ys

/-- Stable sort by index key (same output as Python's stable sorted for
this total key order). -/
def sortByIndex : List GraphNode → List GraphNode
  | [] => []
  | x :: xs => insertByKey x (sortByIndex xs)

/-- _get_plan_steps from processor.py: PLAN_STEP children of the plan
via PARENT_CHILD edges, sorted (stably) by their index attribute. -/
def proc_get_plan_steps (g : GraphStore) (plan_id : String) : List GraphNode :=
  let steps := (g.get_edges plan_id .PARENT_CHILD).filterMap (fun e =>
    match g.get_node e.dst with
    | some n => if n.kind = NodeKind.PLAN_STEP then some n else none
    | none => none)
  sortByIndex steps

/-- session_run.py mark_completed / mark_failed on the run appended by
process_plan (the last run of the session; the Python object is mutated
in place in the list). -/
def setLastRunStatus (runs : List SessionRun) (status : RunStatus) : List SessionRun :=
  match runs.getLast? with
  | none => runs
  | some r => runs.dropLast ++ [{ r with status := status }]

/-- process_plan's loop over the batches: within a batch the steps are
issued in order (gather serialised), across batches sequentially; the
first raised error aborts. -/
def proc_run_batch (enable_caching : Bool)
    (registry : String → Option (Json → Except String Json))
    (assistant_node_id : Option String) (parent_id : String) :
    List String → ProcState → ProcState × Except String (List PToolResult)
  | [], st => (st, .ok [])
  | sid :: rest, st =>
    match proc_execute_step enable_caching registry st sid assistant_node_id parent_id with
    | (st2, .error m) => (st2, .error m)
    | (st2, .ok rs) =>
      match proc_run_batch enable_caching registry assistant_node_id parent_id rest st2 with
      | (st3, .ok rs2) => (st3, .ok (rs ++ rs2))
      | (st3, .error m) => (st3, .error m)

/-- The batches in order. -/
def proc_run_batches (enable_caching : Bool)
    (registry : String → Option (Json → Except String Json))
    (assistant_node_id : Option String) (parent_id : String) :
    List (List String) → ProcState → ProcState × Except String (List PToolResult)
  | [], st => (st, .ok [])
  | batch :: rest, st =>
    match proc_run_batch enable_caching registry assistant_node_id parent_id batch st with
    | (st2, .error m) => (st2, .error m)
    | (st2, .ok rs) =>
      match proc_run_batches enable_caching registry assistant_node_id parent_id rest st2 with
      | (st3, .ok rs2) => (st3, .ok (rs ++ rs2))
      | (st3, .error m) => (st3, .error m)

/-- GraphAwareToolProcessor.process_plan from processor.py: create and
start a run, append the plan-start SUMMARY event, gather the steps
(failing with No steps found when there are none), execute the batches,
then mark the run completed and append the closing SUMMARY -- or, on
any raised error, mark the run failed, append an error event (of type
MESSAGE, the enum having no ERROR member) and re-raise. -/
def process_plan (enable_caching : Bool)
    (registry : String → Option (Json → Except String Json)) (st : ProcState)
    (plan_node_id : String) (assistant_node_id : Option String) :
    ProcState × Except String (List PToolResult) :=
  let run : SessionRun :=
    { id := procFresh st, started_at := "", ended_at := none,
      status := .running, metadata := [] }
  let st1 : ProcState := { st with runs := st.runs ++ [run], nextId := st.nextId + 1 }
  let parentEvt : SessionEvent :=
    { id := procFresh st1, timestamp := "",
      message := .obj [("plan_id", .str plan_node_id)], task_id := none,
      type := .summary, source := .system,
      metadata := [("description", Json.str "Plan execution started")] }
  let parent_id := parentEvt.id
  let st2 : ProcState :=
    { st1 with events := st1.events ++ [parentEvt], nextId := st1.nextId + 1 }
  let step_nodes := proc_get_plan_steps st2.graph plan_node_id
  if step_nodes.isEmpty then
    let msg := "No steps found for plan " ++ plan_node_id
    let st3 : ProcState := { st2 with runs := setLastRunStatus st2.runs .failed }
    let q := create_child_event st3 .message (.obj [("error", .str msg)]) parent_id
    (q.1, .error msg)
  else
    match GraphAwareToolProcessor.determine_execution_order st2.graph step_nodes with
    | .error m =>
      let st3 : ProcState := { st2 with runs := setLastRunStatus st2.runs .failed }
      let q := create_child_event st3 .message (.obj [("error", .str m)]) parent_id
      (q.1, .error m)
    | .ok order =>
      match proc_run_batches enable_caching registry assistant_node_id parent_id order st2 with
      | (st3, .ok results) =>
        let st4 : ProcState := { st3 with runs := setLastRunStatus st3.runs .completed }
        let q := create_child_event st4 .summary
          (.obj [("plan_id", .str plan_node_id), ("steps_executed", .num step_nodes.length),
                 ("tools_executed", .num results.length)]) parent_id
        (q.1, .ok results)
      | (st3, .error m) =>
        let st4 : ProcState := { st3 with runs := setLastRunStatus st3.runs .failed }
        let q := create_child_event st4 .message (.obj [("error", .str m)]) parent_id
        (q.1, .error m)

/-- Concrete store for the C2 counterexample: a plan with steps c, a, b
where a and b form a STEP_ORDER cycle and c carries one echo tool
call. -/
def gC2 : GraphStore :=
  { nodes := [{ id := "P", kind := .PLAN, data := [] },
              { id := "c", kind := .PLAN_STEP,
                data := [("description", Json.str "collect"), ("index", Json.str "1")] },
              { id := "a", kind := .PLAN_STEP,
                data := [("description", Json.str "alpha"), ("index", Json.str "2")] },
              { id := "b", kind := .PLAN_STEP,
                data := [("description", Json.str "beta"), ("index", Json.str "3")] },
              { id := "T", kind := .TOOL_CALL,
                data := [("name", Json.str "echo"), ("args", Json.obj [])] }],
    edges := [{ kind := .PARENT_CHILD, src := "P", dst := "c" },
              { kind := .PARENT_CHILD, src := "P", dst := "a" },
              { kind := .PARENT_CHILD, src := "P", dst := "b" },
              { kind := .STEP_ORDER, src := "a", dst := "b" },
              { kind := .STEP_ORDER, src := "b", dst := "a" },
              { kind := .PLAN_LINK, src := "c", dst := "T" }] }

/-- The echo registry for the C2 counterexample. -/
def regC2 : String → Option (Json → Except String Json) :=
  fun name => if name = "echo" then some (fun args => .ok (.obj [("echo", args)])) else none

/-- C2 counterexample: on this cyclic plan the executor does not fail
with CyclicPlan -- it completes normally, returns the result of step
c's tool, and appends a TOOL_CALL event; the cyclic steps a and b are
silently dropped from the schedule. -/
theorem C2_counterexample :
    (process_plan false regC2 ⟨[], [], [], gC2, 0⟩ "P" none).2 =
      Except.ok [{ id := "T", tool := "echo", args := Json.obj [],
                   result := some (Json.obj [("echo", Json.obj [])]), error := none }] ∧
    ((process_plan false regC2 ⟨[], [], [], gC2, 0⟩ "P" none).1.events.filter
        (fun e => e.type = EventType.toolCall)).length = 1 ∧
    PlanExecutor.determine_execution_order gC2 (proc_get_plan_steps gC2 "P") = [["c"]] := by
  refine ⟨rfl, rfl, rfl⟩

/-- The steps of the cyclic demo plan, as _get_plan_steps returns
them. -/
def stepsC2 : List GraphNode := proc_get_plan_steps gC2 "P"

/-- Witness for the amended C2: the cyclic step a appears nowhere in
the schedule. -/
theorem C2_cyclic_steps_never_scheduled_witness :
    "a" ∉ (PlanExecutor.determine_execution_order gC2 stepsC2).flatten := by
  intro hmem
  obtain ⟨b, hb, hab⟩ := List.mem_flatten.mp hmem
  exact C2_cyclic_steps_never_scheduled gC2 stepsC2 ["a", "b"]
    (by intro d hd; fin_cases hd <;> decide)
    (by intro d hd; fin_cases hd
        · exact ⟨"b", by decide, by decide⟩
        · exact ⟨"a", by decide, by decide⟩)
    ⟨"c", by decide, by decide⟩ "a" (by decide) b hb hab

/-- The Kahn level sets: a step is at level k+1 when it belongs to the
plan and all its prerequisites are at level k. Level 0 is empty, level
1 is the dependency-free steps. -/
def lvlB (ids : List String) (deps0 : String → List String) : Nat → String → Bool
  | 0, _ => false
  | k + 1, s => decide (s ∈ ids) && (deps0 s).all (fun p => lvlB ids deps0 k p)

/-- Unfolding of the successor level. -/
theorem lvlB_succ (ids : List String) (deps0 : String → List String) (k : Nat) (s : String) :
    lvlB ids deps0 (k + 1) s = true ↔
      s ∈ ids ∧ ∀ p ∈ deps0 s, lvlB ids deps0 k p = true := by
  simp [lvlB, List.all_eq_true]

/-- Level membership puts a step in the plan. -/
theorem lvlB_mem (ids : List String) (deps0 : String → List String) (k : Nat) (s : String)
    (h : lvlB ids deps0 k s = true) : s ∈ ids := by
  cases k with
  | zero => simp [lvlB] at h
  | succ k => exact ((lvlB_succ ids deps0 k s).mp h).1

/-- Levels grow. -/
theorem lvlB_mono_succ (ids : List String) (deps0 : String → List String) :
    ∀ (k : Nat) (s : String), lvlB ids deps0 k s = true → lvlB ids deps0 (k + 1) s = true := by
  intro k
  induction k with
  | zero => intro s h; simp [lvlB] at h
  | succ k ih =>
    intro s h
    obtain ⟨hs, hall⟩ := (lvlB_succ ids deps0 k s).mp h
    exact (lvlB_succ ids deps0 (k + 1) s).mpr ⟨hs, fun p hp => ih p (hall p hp)⟩

/-- Levels grow, general form. -/
theorem lvlB_mono (ids : List String) (deps0 : String → List String) (k m : Nat)
    (hkm : k ≤ m) (s : String) (h : lvlB ids deps0 k s = true) :
    lvlB ids deps0 m s = true := by
  induction m with
  | zero =>
    have hk0 : k = 0 := Nat.le_zero.mp hkm
    exact hk0 ▸ h
  | succ m ih =>
    rcases Nat.lt_or_ge k (m + 1) with h2 | h2
    · exact lvlB_mono_succ ids deps0 m s (ih (Nat.lt_succ_iff.mp h2))
    · have he : k = m + 1 := Nat.le_antisymm hkm h2
      exact he ▸ h

/-- After a stabilized level, nothing new ever enters. -/
theorem lvlB_stab (ids : List String) (deps0 : String → List String) (k : Nat)
    (hstab : ∀ s, lvlB ids deps0 (k + 1) s = true → lvlB ids deps0 k s = true) :
    ∀ (m : Nat) (s : String), lvlB ids deps0 (k + m) s = true → lvlB ids deps0 k s = true := by
  intro m
  induction m with
  | zero => intro s h; exact h
  | succ m ih =>
    intro s h
    obtain ⟨hs, hall⟩ := (lvlB_succ ids deps0 (k + m) s).mp h
    exact hstab s ((lvlB_succ ids deps0 k s).mpr ⟨hs, fun p hp => ih p (hall p hp)⟩)

/-- If every plan step has a prerequisite, no level ever holds
anything. -/
theorem lvlB_none (ids : List String) (deps0 : String → List String)
    (hne : ∀ s ∈ ids, deps0 s ≠ []) :
    ∀ (m : Nat) (s : String), lvlB ids deps0 m s = false := by
  intro m
  induction m with
  | zero => intro s; rfl
  | succ m ih =>
    intro s
    by_contra hc
    obtain ⟨hs, hall⟩ := (lvlB_succ ids deps0 m s).mp (by
      cases h : lvlB ids deps0 (m + 1) s
      · exact absurd h hc
      · rfl)
    obtain ⟨p, hp⟩ := List.exists_mem_of_ne_nil _ (hne s hs)
    have h1 := hall p hp
    rw [ih p] at h1
    cases h1

/-- The sources of the STEP_ORDER pairs are steps of the plan. -/
theorem stepOrderPairs_fst (g : GraphStore) (steps : List GraphNode) :
    ∀ p ∈ stepOrderPairs g steps, p.1 ∈ steps.map (fun s => s.id) := by
  intro p hp
  unfold stepOrderPairs at hp
  rw [List.mem_flatMap] at hp
  obtain ⟨s, hs, hmem⟩ := hp
  rw [List.mem_map] at hmem
  obtain ⟨e, _, rfl⟩ := hmem
  exact List.mem_map.mpr ⟨s, hs, rfl⟩

/-- A step outside the plan has no recorded prerequisites. -/
theorem depsMap_not_mem (ids : List String) (prs : List (String × String)) (d : String)
    (hd : d ∉ ids) : depsMap ids prs d = [] := by
  unfold depsMap
  rw [if_neg hd]

/-- The prerequisite lists are duplicate-free. -/
theorem depsMap_nodup (ids : List String) (prs : List (String × String)) (d : String) :
    (depsMap ids prs d).Nodup := by
  unfold depsMap
  by_cases hd : d ∈ ids
  · rw [if_pos hd]; exact List.nodup_dedup _
  · rw [if_neg hd]; exact List.nodup_nil

/-- Finite descent: a nonempty finite set in which every element has a
predecessor contains a cycle. -/
theorem exists_cycle_of_all_pred (e : String → String → Prop) (C : List String)
    (hC : C ≠ []) (hpred : ∀ d ∈ C, ∃ p ∈ C, e p d) :
    ∃ s, Relation.TransGen e s s := by
  classical
  obtain ⟨d0, hd0⟩ := List.exists_mem_of_ne_nil C hC
  have hex : ∀ x : {x // x ∈ C}, ∃ y : {y // y ∈ C}, e y.1 x.1 := by
    rintro ⟨x, hx⟩
    obtain ⟨p, hpC, hpe⟩ := hpred x hx
    exact ⟨⟨p, hpC⟩, hpe⟩
  choose g hg using hex
  have hstep : ∀ n : Nat, e (g^[n + 1] ⟨d0, hd0⟩).1 (g^[n] ⟨d0, hd0⟩).1 := by
    intro n
    rw [Function.iterate_succ_apply' g n]
    exact hg _
  have hchain : ∀ j i : Nat, i < j →
      Relation.TransGen e (g^[j] ⟨d0, hd0⟩).1 (g^[i] ⟨d0, hd0⟩).1 := by
    intro j
    induction j with
    | zero => intro i hi; exact absurd hi (Nat.not_lt_zero i)
    | succ m ihm =>
      intro i hi
      rcases Nat.lt_succ_iff_lt_or_eq.mp hi with h | h
      · exact Relation.TransGen.head (hstep m) (ihm i h)
      · subst h
        exact Relation.TransGen.single (hstep i)
  have hmap : ∀ i ∈ Finset.range (C.length + 1), (g^[i] ⟨d0, hd0⟩).1 ∈ C.toFinset := by
    intro i _
    exact List.mem_toFinset.mpr (g^[i] ⟨d0, hd0⟩).2
  have hcard : C.toFinset.card < (Finset.range (C.length + 1)).card := by
    rw [Finset.card_range]
    exact Nat.lt_succ_of_le (List.toFinset_card_le C)
  obtain ⟨i, _, j, _, hne, heq⟩ :=
    Finset.exists_ne_map_eq_of_card_lt_of_maps_to hcard hmap
  rcases Nat.lt_or_ge i j with h | h
  · refine ⟨(g^[i] ⟨d0, hd0⟩).1, ?_⟩
    have hc := hchain j i h
    rwa [← heq] at hc
  · have h2 : j < i := Nat.lt_of_le_of_ne h (fun hh => hne hh.symm)
    refine ⟨(g^[j] ⟨d0, hd0⟩).1, ?_⟩
    have hc := hchain i j h2
    rwa [heq] at hc

/-- A stabilized level that misses a plan step betrays a dependency
cycle. -/
theorem lvlB_blocked_cycle (ids : List String) (prs : List (String × String))
    (hsrc : ∀ p ∈ prs, p.1 ∈ ids) (k : Nat)
    (hstab : ∀ s, lvlB ids (depsMap ids prs) (k + 1) s = true →
      lvlB ids (depsMap ids prs) k s = true)
    (hbad : ∃ s ∈ ids, lvlB ids (depsMap ids prs) k s = false) :
    ∃ s, Relation.TransGen (fun a b => (a, b) ∈ prs) s s := by
  obtain ⟨s0, hs0, hs0l⟩ := hbad
  have hs0c : s0 ∈ ids.filter (fun s => !(lvlB ids (depsMap ids prs) k s)) :=
    List.mem_filter.mpr ⟨hs0, by rw [hs0l]; rfl⟩
  refine exists_cycle_of_all_pred _ _ (List.ne_nil_of_mem hs0c) ?_
  intro d hd
  obtain ⟨hdids, hdl⟩ := List.mem_filter.mp hd
  have hdk : lvlB ids (depsMap ids prs) k d = false := by
    cases h : lvlB ids (depsMap ids prs) k d
    · rfl
    · rw [h] at hdl; cases hdl
  have hdk1 : lvlB ids (depsMap ids prs) (k + 1) d = false := by
    cases h : lvlB ids (depsMap ids prs) (k + 1) d
    · rfl
    · rw [hstab d h] at hdk; cases hdk
  have hnot : ¬ (d ∈ ids ∧ ∀ p ∈ depsMap ids prs d, lvlB ids (depsMap ids prs) k p = true) := by
    intro hh
    rw [(lvlB_succ ids (depsMap ids prs) k d).mpr hh] at hdk1
    cases hdk1
  push_neg at hnot
  obtain ⟨p, hp, hpl⟩ := hnot hdids
  have hpprs : (p, d) ∈ prs := (mem_depsMap ids prs d p hdids).mp hp
  have hpids : p ∈ ids := hsrc (p, d) hpprs
  refine ⟨p, List.mem_filter.mpr ⟨hpids, ?_⟩, hpprs⟩
  cases h : lvlB ids (depsMap ids prs) k p
  · rfl
  · exact absurd h hpl

/-- Acyclicity puts every plan step within the first length-many
levels. -/
theorem lvlB_cover (ids : List String) (prs : List (String × String))
    (hsrc : ∀ p ∈ prs, p.1 ∈ ids)
    (hacyc : ∀ s, ¬ Relation.TransGen (fun a b => (a, b) ∈ prs) s s) :
    ∀ s ∈ ids, lvlB ids (depsMap ids prs) ids.length s = true := by
  by_cases hstabex : ∃ k < ids.length, ∀ s,
      lvlB ids (depsMap ids prs) (k + 1) s = true → lvlB ids (depsMap ids prs) k s = true
  · obtain ⟨k, hk, hstab⟩ := hstabex
    intro s hs
    have hLk : lvlB ids (depsMap ids prs) k s = true := by
      by_contra hns
      have hbad : ∃ t ∈ ids, lvlB ids (depsMap ids prs) k t = false := by
        refine ⟨s, hs, ?_⟩
        cases h : lvlB ids (depsMap ids prs) k s
        · rfl
        · exact absurd h hns
      obtain ⟨t, ht⟩ := lvlB_blocked_cycle ids prs hsrc k hstab hbad
      exact hacyc t ht
    exact lvlB_mono ids (depsMap ids prs) k ids.length (Nat.le_of_lt hk) s hLk
  · push_neg at hstabex
    have hgrow : ∀ k, k < ids.length →
        (ids.filter (fun s => lvlB ids (depsMap ids prs) k s)).length <
        (ids.filter (fun s => lvlB ids (depsMap ids prs) (k + 1) s)).length := by
      intro k hk
      obtain ⟨s, hs1, hs0⟩ := hstabex k hk
      have hsub := List.monotone_filter_right ids
        (fun a ha => lvlB_mono_succ ids (depsMap ids prs) k a ha)
      rcases Nat.lt_or_ge (ids.filter (fun s => lvlB ids (depsMap ids prs) k s)).length
        (ids.filter (fun s => lvlB ids (depsMap ids prs) (k + 1) s)).length with h | h
      · exact h
      · have heq := hsub.eq_of_length (Nat.le_antisymm hsub.length_le h)
        have hsin : s ∈ ids.filter (fun t => lvlB ids (depsMap ids prs) (k + 1) t) :=
          List.mem_filter.mpr ⟨lvlB_mem ids (depsMap ids prs) (k + 1) s hs1, hs1⟩
        rw [← heq] at hsin
        exact absurd ((List.mem_filter.mp hsin).2) hs0
    have hge : ∀ k, k ≤ ids.length →
        k ≤ (ids.filter (fun s => lvlB ids (depsMap ids prs) k s)).length := by
      intro k
      induction k with
      | zero => intro _; exact Nat.zero_le _
      | succ k ih =>
        intro hk1
        have h1 := ih (Nat.le_of_lt hk1)
        have h2 := hgrow k hk1
        omega
    have hN := hge ids.length (Nat.le_refl _)
    have hle := List.length_filter_le
      (fun s => lvlB ids (depsMap ids prs) ids.length s) ids
    have heq := (List.filter_sublist ids).eq_of_length (Nat.le_antisymm hle hN)
    intro s hs
    rw [← heq] at hs
    exact (List.mem_filter.mp hs).2

/-- Full specification of the inner batch fold: prerequisites of the
processed ready steps are discarded (and nothing else), the newly ready
steps are exactly those whose prerequisites all lay in the batch, and
the next ready list stays duplicate-free. -/
theorem batch_fold_spec (dependents : String → List String)
    (hnd : ∀ s, (dependents s).Nodup) :
    ∀ R : List String, R.Nodup →
    ∀ (f : String → List String) (n : List String),
    (∀ x p, p ∈ f x → x ∈ dependents p) →
    (∀ x, (f x).Nodup) →
    (∀ d ∈ n, f d = []) →
    n.Nodup →
    (∀ x sid, sid ∈ R → x ∈ dependents sid → sid ∈ f x) →
    (∀ x, (R.foldl (runStep dependents) (f, n)).1 x =
      (f x).filter (fun p => decide (p ∉ R))) ∧
    (∀ d, d ∈ (R.foldl (runStep dependents) (f, n)).2 ↔
      d ∈ n ∨ (f d ≠ [] ∧ ∀ p ∈ f d, p ∈ R)) ∧
    (R.foldl (runStep dependents) (f, n)).2.Nodup := by
  intro R
  induction R with
  | nil =>
    intro _ f n _ _ _ hnn _
    refine ⟨?_, ?_, hnn⟩
    · intro x
      simp
    · intro d
      simp only [List.foldl_nil]
      constructor
      · exact Or.inl
      · rintro (hd | ⟨hne', hall⟩)
        · exact hd
        · exact absurd (List.eq_nil_iff_forall_not_mem.mpr
            (fun p hp => absurd (hall p hp) (List.not_mem_nil p))) hne'
  | cons sid R' ih =>
    intro hR f n hf hfnd hne hnn hsym
    have hsidR' : sid ∉ R' := (List.nodup_cons.mp hR).1
    have hR' : R'.Nodup := (List.nodup_cons.mp hR).2
    simp only [List.foldl_cons, runStep_closed dependents sid (hnd sid) f n]
    have hf1 : ∀ x p, p ∈ (if x ∈ dependents sid then (f x).erase sid else f x) →
        x ∈ dependents p := by
      intro x p hp
      by_cases hx : x ∈ dependents sid
      · rw [if_pos hx] at hp
        exact hf x p (List.mem_of_mem_erase hp)
      · rw [if_neg hx] at hp
        exact hf x p hp
    have hfnd1 : ∀ x, (if x ∈ dependents sid then (f x).erase sid else f x).Nodup := by
      intro x
      by_cases hx : x ∈ dependents sid
      · rw [if_pos hx]; exact (hfnd x).erase sid
      · rw [if_neg hx]; exact hfnd x
    have hne1 : ∀ d ∈ n ++ (dependents sid).filter (fun d => decide ((f d).erase sid = [])),
        (if d ∈ dependents sid then (f d).erase sid else f d) = [] := by
      intro d hd
      rcases List.mem_append.mp hd with hd | hd
      · have h0 : f d = [] := hne d hd
        by_cases hx : d ∈ dependents sid
        · rw [if_pos hx, h0]; rfl
        · rw [if_neg hx, h0]
      · have hdd := List.mem_of_mem_filter hd
        have herase : (f d).erase sid = [] := by simpa using List.of_mem_filter hd
        rw [if_pos hdd, herase]
    have hnn1 : (n ++ (dependents sid).filter (fun d => decide ((f d).erase sid = []))).Nodup := by
      refine List.Nodup.append hnn (List.Nodup.filter _ (hnd sid)) ?_
      intro a ha ha'
      have h0 : f a = [] := hne a ha
      have hdd := List.mem_of_mem_filter ha'
      have hsa : sid ∈ f a := hsym a sid (List.mem_cons_self sid R') hdd
      rw [h0] at hsa
      cases hsa
    have hsym1 : ∀ x sid', sid' ∈ R' → x ∈ dependents sid' →
        sid' ∈ (if x ∈ dependents sid then (f x).erase sid else f x) := by
      intro x sid' hs' hx
      have hs := hsym x sid' (List.mem_cons_of_mem sid hs') hx
      by_cases hxd : x ∈ dependents sid
      · rw [if_pos hxd]
        have hne2 : sid' ≠ sid := fun hh => hsidR' (hh ▸ hs')
        exact (List.mem_erase_of_ne hne2).mpr hs
      · rw [if_neg hxd]
        exact hs
    obtain ⟨ih1, ih2, ih3⟩ := ih hR'
      (fun x => if x ∈ dependents sid then (f x).erase sid else f x)
      (n ++ (dependents sid).filter (fun d => decide ((f d).erase sid = [])))
      hf1 hfnd1 hne1 hnn1 hsym1
    have hm : ∀ d p, p ∈ (if d ∈ dependents sid then (f d).erase sid else f d) ↔
        (p ∈ f d ∧ p ≠ sid) := by
      intro d p
      by_cases hx : d ∈ dependents sid
      · rw [if_pos hx, (hfnd d).mem_erase_iff]
        exact ⟨fun ⟨h1, h2⟩ => ⟨h2, h1⟩, fun ⟨h1, h2⟩ => ⟨h2, h1⟩⟩
      · rw [if_neg hx]
        constructor
        · intro hp
          refine ⟨hp, fun hh => hx ?_⟩
          subst hh
          exact hf d p hp
        · exact fun h => h.1
    refine ⟨?_, ?_, ih3⟩
    · intro x
      rw [ih1 x]
      by_cases hx : x ∈ dependents sid
      · rw [if_pos hx, (hfnd x).erase_eq_filter sid, List.filter_filter]
        refine List.filter_congr ?_
        intro p hp
        simp only [List.mem_cons, not_or]
        by_cases hps : p = sid <;> simp [hps]
      · rw [if_neg hx]
        refine List.filter_congr ?_
        intro p hp
        have hpne : p ≠ sid := fun hh => hx (by rw [← hh]; exact hf x p hp)
        simp [List.mem_cons, hpne]
    · intro d
      rw [ih2 d]
      constructor
      · rintro (hd | ⟨hne', hall⟩)
        · rcases List.mem_append.mp hd with hd | hd
          · exact Or.inl hd
          · have hdd := List.mem_of_mem_filter hd
            have herase : (f d).erase sid = [] := by simpa using List.of_mem_filter hd
            have hsd : sid ∈ f d := hsym d sid (List.mem_cons_self sid R') hdd
            refine Or.inr ⟨List.ne_nil_of_mem hsd, ?_⟩
            intro p hp
            by_cases hps : p = sid
            · rw [hps]; exact List.mem_cons_self sid R'
            · have hpe : p ∈ (f d).erase sid :=
                (hfnd d).mem_erase_iff.mpr ⟨hps, hp⟩
              rw [herase] at hpe
              cases hpe
        · obtain ⟨p0, hp0⟩ := List.exists_mem_of_ne_nil _ hne'
          have hp0f := (hm d p0).mp hp0
          refine Or.inr ⟨List.ne_nil_of_mem hp0f.1, ?_⟩
          intro p hp
          by_cases hps : p = sid
          · rw [hps]; exact List.mem_cons_self sid R'
          · have hpf1 := (hm d p).mpr ⟨hp, hps⟩
            exact List.mem_cons_of_mem sid (hall p hpf1)
      · rintro (hd | ⟨hne', hall⟩)
        · exact Or.inl (List.mem_append.mpr (Or.inl hd))
        · by_cases hcase : ∀ p ∈ f d, p = sid
          · obtain ⟨p0, hp0⟩ := List.exists_mem_of_ne_nil _ hne'
            have hsd : sid ∈ f d := (hcase p0 hp0) ▸ hp0
            have hdd : d ∈ dependents sid := hf d sid hsd
            have herase : (f d).erase sid = [] := by
              rw [List.eq_nil_iff_forall_not_mem]
              intro p hp
              have h2 := (hfnd d).mem_erase_iff.mp hp
              exact h2.1 (hcase p h2.2)
            refine Or.inl (List.mem_append.mpr (Or.inr ?_))
            refine List.mem_filter.mpr ⟨hdd, ?_⟩
            rw [herase]
            rfl
          · push_neg at hcase
            obtain ⟨p0, hp0, hp0ne⟩ := hcase
            have hp0f1 := (hm d p0).mpr ⟨hp0, hp0ne⟩
            refine Or.inr ⟨List.ne_nil_of_mem hp0f1, ?_⟩
            intro p hp
            have h2 := (hm d p).mp hp
            rcases List.mem_cons.mp (hall p h2.1) with h3 | h3
            · exact absurd h3 h2.2
            · exact h3

/-- One Kahn batch advances the level invariant: the surviving
prerequisite lists are the original ones filtered above the next level,
and the next ready list is exactly the next level difference. -/
theorem processBatch_level (ids : List String) (prs : List (String × String))
    (hsrc : ∀ p ∈ prs, p.1 ∈ ids) (hdst : ∀ p ∈ prs, p.2 ∈ ids)
    (k : Nat) (f : String → List String) (r : List String)
    (hfInv : ∀ d, f d = (depsMap ids prs d).filter
      (fun p => !(lvlB ids (depsMap ids prs) k p)))
    (hrInv : ∀ s, s ∈ r ↔ (lvlB ids (depsMap ids prs) (k + 1) s = true ∧
      lvlB ids (depsMap ids prs) k s = false))
    (hrnd : r.Nodup) :
    (∀ d, (processBatch (dependentsMap prs) f r).1 d =
      (depsMap ids prs d).filter (fun p => !(lvlB ids (depsMap ids prs) (k + 1) p))) ∧
    (∀ s, s ∈ (processBatch (dependentsMap prs) f r).2 ↔
      (lvlB ids (depsMap ids prs) (k + 2) s = true ∧
       lvlB ids (depsMap ids prs) (k + 1) s = false)) ∧
    (processBatch (dependentsMap prs) f r).2.Nodup := by
  have hmemf : ∀ x p, p ∈ f x ↔
      (p ∈ depsMap ids prs x ∧ lvlB ids (depsMap ids prs) k p = false) := by
    intro x p
    rw [hfInv x, List.mem_filter]
    constructor
    · rintro ⟨h1, h2⟩
      refine ⟨h1, ?_⟩
      cases h : lvlB ids (depsMap ids prs) k p
      · rfl
      · rw [h] at h2; cases h2
    · rintro ⟨h1, h2⟩
      exact ⟨h1, by rw [h2]; rfl⟩
  have hidf : ∀ x p, p ∈ f x → x ∈ ids := by
    intro x p hp
    have h1 := ((hmemf x p).mp hp).1
    by_contra hx
    rw [depsMap_not_mem ids prs x hx] at h1
    cases h1
  obtain ⟨h1, h2, h3⟩ := batch_fold_spec (dependentsMap prs)
    (fun s => dependentsMap_nodup prs s) r hrnd f []
    (by
      intro x p hp
      have hx := hidf x p hp
      have h1 := ((hmemf x p).mp hp).1
      exact (mem_dependentsMap prs p x).mpr ((mem_depsMap ids prs x p hx).mp h1))
    (by
      intro x
      rw [hfInv x]
      exact List.Nodup.filter _ (depsMap_nodup ids prs x))
    (by intro d hd; cases hd)
    List.nodup_nil
    (by
      intro x sid hsid hx
      obtain ⟨hs1, hs0⟩ := (hrInv sid).mp hsid
      have hprs : (sid, x) ∈ prs := (mem_dependentsMap prs sid x).mp hx
      have hxids : x ∈ ids := hdst (sid, x) hprs
      refine (hmemf x sid).mpr ⟨(mem_depsMap ids prs x sid hxids).mpr hprs, hs0⟩)
  refine ⟨?_, ?_, h3⟩
  · intro d
    have hkey := h1 d
    rw [hfInv d, List.filter_filter] at hkey
    rw [show processBatch (dependentsMap prs) f r = r.foldl (runStep (dependentsMap prs))
      (f, []) from rfl, hkey]
    refine List.filter_congr ?_
    intro p hp
    by_cases hk1 : lvlB ids (depsMap ids prs) (k + 1) p = true
    · by_cases hk : lvlB ids (depsMap ids prs) k p = true
      · simp [hk, hk1]
      · have hk0 : lvlB ids (depsMap ids prs) k p = false := by
          cases h : lvlB ids (depsMap ids prs) k p
          · rfl
          · exact absurd h hk
        have hpr : p ∈ r := (hrInv p).mpr ⟨hk1, hk0⟩
        simp [hk0, hk1, hpr]
    · have hk1f : lvlB ids (depsMap ids prs) (k + 1) p = false := by
        cases h : lvlB ids (depsMap ids prs) (k + 1) p
        · rfl
        · exact absurd h hk1
      have hk0 : lvlB ids (depsMap ids prs) k p = false := by
        cases h : lvlB ids (depsMap ids prs) k p
        · rfl
        · exact absurd (lvlB_mono_succ ids (depsMap ids prs) k p h) hk1
      have hpr : p ∉ r := fun hh => hk1 ((hrInv p).mp hh).1
      simp [hk0, hk1f, hpr]
  · intro s
    rw [show processBatch (dependentsMap prs) f r = r.foldl (runStep (dependentsMap prs))
      (f, []) from rfl, h2 s]
    simp only [List.not_mem_nil, false_or]
    constructor
    · rintro ⟨hne', hall⟩
      obtain ⟨p0, hp0⟩ := List.exists_mem_of_ne_nil _ hne'
      have hsids : s ∈ ids := hidf s p0 hp0
      have hlev : ∀ p ∈ depsMap ids prs s, lvlB ids (depsMap ids prs) (k + 1) p = true := by
        intro p hp
        by_cases hk : lvlB ids (depsMap ids prs) k p = true
        · exact lvlB_mono_succ ids (depsMap ids prs) k p hk
        · have hk0 : lvlB ids (depsMap ids prs) k p = false := by
            cases h : lvlB ids (depsMap ids prs) k p
            · rfl
            · exact absurd h hk
          have hpf : p ∈ f s := (hmemf s p).mpr ⟨hp, hk0⟩
          exact ((hrInv p).mp (hall p hpf)).1
      refine ⟨(lvlB_succ ids (depsMap ids prs) (k + 1) s).mpr ⟨hsids, hlev⟩, ?_⟩
      cases h : lvlB ids (depsMap ids prs) (k + 1) s
      · rfl
      · obtain ⟨_, hall2⟩ := (lvlB_succ ids (depsMap ids prs) k s).mp h
        have hfe : f s = [] := by
          rw [hfInv s, List.filter_eq_nil_iff]
          intro p hp
          rw [hall2 p hp]
          simp
        rw [hfe] at hp0
        cases hp0
    · rintro ⟨h2k, h1k⟩
      obtain ⟨hsids, hall2⟩ := (lvlB_succ ids (depsMap ids prs) (k + 1) s).mp h2k
      have hnot : ¬ ∀ p ∈ depsMap ids prs s, lvlB ids (depsMap ids prs) k p = true := by
        intro hh
        rw [(lvlB_succ ids (depsMap ids prs) k s).mpr ⟨hsids, hh⟩] at h1k
        cases h1k
      push_neg at hnot
      obtain ⟨p0, hp0, hp0l⟩ := hnot
      have hp0f : p0 ∈ f s := (hmemf s p0).mpr ⟨hp0, by
        cases h : lvlB ids (depsMap ids prs) k p0
        · rfl
        · exact absurd h hp0l⟩
      refine ⟨List.ne_nil_of_mem hp0f, ?_⟩
      intro p hp
      obtain ⟨hpd, hpk⟩ := (hmemf s p).mp hp
      exact (hrInv p).mpr ⟨hall2 p hpd, hpk⟩

/-- The Kahn loop under the level invariant: batch i is exactly the
i-th level difference, every not-yet-emitted plan step lands in some
batch (given enough fuel for the levels to cover the plan), and the
concatenation of the batches is duplicate-free. -/
theorem kahnLoop_level (ids : List String) (prs : List (String × String))
    (hsrc : ∀ p ∈ prs, p.1 ∈ ids) (hdst : ∀ p ∈ prs, p.2 ∈ ids) :
    ∀ (fuel k : Nat) (f : String → List String) (r : List String),
    (∀ d, f d = (depsMap ids prs d).filter
      (fun p => !(lvlB ids (depsMap ids prs) k p))) →
    (∀ s, s ∈ r ↔ (lvlB ids (depsMap ids prs) (k + 1) s = true ∧
      lvlB ids (depsMap ids prs) k s = false)) →
    r.Nodup →
    (∀ s ∈ ids, lvlB ids (depsMap ids prs) (k + fuel) s = true) →
    (∀ (i : Nat) (hi : i < (kahnLoop (dependentsMap prs) fuel f r).length) (s : String),
      s ∈ (kahnLoop (dependentsMap prs) fuel f r)[i] ↔
        (lvlB ids (depsMap ids prs) (k + i + 1) s = true ∧
         lvlB ids (depsMap ids prs) (k + i) s = false)) ∧
    (∀ s ∈ ids, lvlB ids (depsMap ids prs) k s = false →
      ∃ b ∈ kahnLoop (dependentsMap prs) fuel f r, s ∈ b) ∧
    (kahnLoop (dependentsMap prs) fuel f r).flatten.Nodup := by
  intro fuel
  induction fuel with
  | zero =>
    intro k f r _ _ _ hterm
    refine ⟨?_, ?_, by simp [kahnLoop]⟩
    · intro i hi
      simp [kahnLoop] at hi
    · intro s hs h0
      have h1 : lvlB ids (depsMap ids prs) k s = true := hterm s hs
      rw [h1] at h0
      cases h0
  | succ fuel ih =>
    intro k f r hf hr hrnd hterm
    by_cases hre : r.isEmpty
    · have hloop : kahnLoop (dependentsMap prs) (fuel + 1) f r = [] := by
        unfold kahnLoop
        rw [if_pos hre]
      have hrnil : r = [] := List.isEmpty_iff.mp hre
      refine ⟨?_, ?_, by rw [hloop]; simp⟩
      · intro i hi
        rw [hloop] at hi
        simp at hi
      · intro s hs h0
        have hstab : ∀ t, lvlB ids (depsMap ids prs) (k + 1) t = true →
            lvlB ids (depsMap ids prs) k t = true := by
          intro t ht
          by_contra hkt
          have hk0 : lvlB ids (depsMap ids prs) k t = false := by
            cases h : lvlB ids (depsMap ids prs) k t
            · rfl
            · exact absurd h hkt
          have : t ∈ r := (hr t).mpr ⟨ht, hk0⟩
          rw [hrnil] at this
          cases this
        have h1 := lvlB_stab ids (depsMap ids prs) k hstab (fuel + 1) s (hterm s hs)
        rw [h1] at h0
        cases h0
    · have hloop : kahnLoop (dependentsMap prs) (fuel + 1) f r =
          r :: kahnLoop (dependentsMap prs) fuel
            (processBatch (dependentsMap prs) f r).1
            (processBatch (dependentsMap prs) f r).2 := by
        conv_lhs => rw [kahnLoop]
        rw [if_neg hre]
      obtain ⟨pb1, pb2, pb3⟩ := processBatch_level ids prs hsrc hdst k f r hf hr hrnd
      have hterm' : ∀ s ∈ ids, lvlB ids (depsMap ids prs) ((k + 1) + fuel) s = true := by
        intro s hs
        have h0 := hterm s hs
        have he : k + (fuel + 1) = (k + 1) + fuel := by omega
        rwa [he] at h0
      obtain ⟨ia, ib, ic⟩ := ih (k + 1)
        (processBatch (dependentsMap prs) f r).1
        (processBatch (dependentsMap prs) f r).2
        pb1 pb2 pb3 hterm'
      rw [hloop]
      refine ⟨?_, ?_, ?_⟩
      · intro i hi s
        cases i with
        | zero =>
          simp only [List.getElem_cons_zero]
          exact hr s
        | succ i' =>
          rw [List.getElem_cons_succ]
          have hi' : i' < (kahnLoop (dependentsMap prs) fuel
              (processBatch (dependentsMap prs) f r).1
              (processBatch (dependentsMap prs) f r).2).length := by
            simp only [List.length_cons] at hi
            exact Nat.succ_lt_succ_iff.mp hi
          have hia := ia i' hi' s
          have e1 : k + 1 + i' = k + (i' + 1) := by omega
          rw [e1] at hia
          exact hia
      · intro s hs h0
        by_cases h1 : lvlB ids (depsMap ids prs) (k + 1) s = true
        · exact ⟨r, List.mem_cons_self r _, (hr s).mpr ⟨h1, h0⟩⟩
        · have h1f : lvlB ids (depsMap ids prs) (k + 1) s = false := by
            cases h : lvlB ids (depsMap ids prs) (k + 1) s
            · rfl
            · exact absurd h h1
          obtain ⟨b, hb, hsb⟩ := ib s hs h1f
          exact ⟨b, List.mem_cons_of_mem r hb, hsb⟩
      · rw [List.flatten_cons]
        refine List.Nodup.append hrnd ic ?_
        intro a ha ha'
        obtain ⟨hA1, hA0⟩ := (hr a).mp ha
        rw [List.mem_flatten] at ha'
        obtain ⟨b, hb, hab⟩ := ha'
        obtain ⟨i', hi', hbeq⟩ := List.mem_iff_getElem.mp hb
        have hia := (ia i' hi' a).mp (hbeq ▸ hab)
        have hmono := lvlB_mono ids (depsMap ids prs) (k + 1) (k + 1 + i')
          (Nat.le_add_right _ _) a hA1
        rw [hia.2] at hmono
        cases hmono

/-- When every STEP_ORDER edge stays inside the plan, the processor's
dependents map is the executor's dependencies map. -/
theorem processor_dependents_eq_depsMap (g : GraphStore) (steps : List GraphNode)
    (hdst : ∀ p ∈ stepOrderPairs g steps, p.2 ∈ steps.map (fun s => s.id)) :
    GraphAwareToolProcessor.dependents (stepOrderPairs g steps) =
      depsMap (steps.map (fun s => s.id)) (stepOrderPairs g steps) := by
  funext d
  by_cases hd : d ∈ steps.map (fun s => s.id)
  · unfold GraphAwareToolProcessor.dependents depsMap
    rw [if_pos hd]
  · rw [depsMap_not_mem _ _ _ hd]
    unfold GraphAwareToolProcessor.dependents
    have hnil : (stepOrderPairs g steps).filter (fun p => p.2 = d) = [] := by
      rw [List.filter_eq_nil_iff]
      intro p hp hpd
      rw [decide_eq_true_eq] at hpd
      exact hd (hpd ▸ hdst p hp)
    rw [hnil]
    rfl

/-- On a nonempty steps list with no dangling STEP_ORDER targets, the
two implementations agree; the processor wraps the executor's batches
in a normal return. -/
theorem processor_order_eq_plan_executor (g : GraphStore) (steps : List GraphNode)
    (hne : steps ≠ [])
    (hdst : ∀ p ∈ stepOrderPairs g steps, p.2 ∈ steps.map (fun s => s.id)) :
    GraphAwareToolProcessor.determine_execution_order g steps =
      Except.ok (PlanExecutor.determine_execution_order g steps) := by
  cases steps with
  | nil => exact absurd rfl hne
  | cons s0 rest =>
    have hfeq := processor_dependents_eq_depsMap g (s0 :: rest) hdst
    simp only [GraphAwareToolProcessor.determine_execution_order,
      PlanExecutor.determine_execution_order, hfeq, List.map_cons]
    split
    · rename_i hcond
      simp only [if_pos hcond]
    · rename_i hcond
      simp only [if_neg hcond]

/-- Kahn correctness over abstract step ids and STEP_ORDER pairs:
starting from the dependency-free steps, the emitted batches partition
the plan and respect every edge. -/
theorem kahn_main (ids : List String) (prs : List (String × String))
    (hids : ids.Nodup)
    (hsrc : ∀ p ∈ prs, p.1 ∈ ids) (hdst : ∀ p ∈ prs, p.2 ∈ ids)
    (hacyc : ∀ s, ¬ Relation.TransGen (fun a b => (a, b) ∈ prs) s s)
    (fuel : Nat) (hfuel : ids.length ≤ fuel)
    (B : List (List String))
    (hB : B = kahnLoop (dependentsMap prs) (fuel + 1) (depsMap ids prs)
      (ids.filter (fun s => decide (depsMap ids prs s = [])))) :
    (∀ s, (∃ b ∈ B, s ∈ b) ↔ s ∈ ids) ∧ B.flatten.Nodup ∧
    (∀ (a b : String) (i j : Nat) (hi : i < B.length) (hj : j < B.length),
      (a, b) ∈ prs → a ∈ B[i] → b ∈ B[j] → i < j) := by
  subst hB
  have hf0 : ∀ d, depsMap ids prs d = (depsMap ids prs d).filter
      (fun p => !(lvlB ids (depsMap ids prs) 0 p)) := by
    intro d
    simp [lvlB]
  have hr0 : ∀ s, s ∈ ids.filter (fun s => decide (depsMap ids prs s = [])) ↔
      (lvlB ids (depsMap ids prs) (0 + 1) s = true ∧
       lvlB ids (depsMap ids prs) 0 s = false) := by
    intro s
    rw [List.mem_filter]
    simp only [decide_eq_true_eq]
    constructor
    · rintro ⟨h1, h2⟩
      refine ⟨(lvlB_succ ids (depsMap ids prs) 0 s).mpr ⟨h1, ?_⟩, rfl⟩
      intro p hp
      rw [h2] at hp
      cases hp
    · rintro ⟨h1, _⟩
      obtain ⟨hs, hall⟩ := (lvlB_succ ids (depsMap ids prs) 0 s).mp h1
      refine ⟨hs, ?_⟩
      rw [List.eq_nil_iff_forall_not_mem]
      intro p hp
      have h2 := hall p hp
      simp [lvlB] at h2
  have hrnd0 : (ids.filter (fun s => decide (depsMap ids prs s = []))).Nodup :=
    List.Nodup.filter _ hids
  have hterm0 : ∀ s ∈ ids, lvlB ids (depsMap ids prs) (0 + (fuel + 1)) s = true := by
    intro s hs
    have hcov := lvlB_cover ids prs hsrc hacyc s hs
    exact lvlB_mono ids (depsMap ids prs) ids.length (0 + (fuel + 1))
      (by omega) s hcov
  obtain ⟨ha, hb, hc⟩ := kahnLoop_level ids prs hsrc hdst (fuel + 1) 0
    (depsMap ids prs) (ids.filter (fun s => decide (depsMap ids prs s = [])))
    (fun d => hf0 d) hr0 hrnd0 hterm0
  refine ⟨?_, hc, ?_⟩
  · intro s
    constructor
    · rintro ⟨b, hbB, hsb⟩
      obtain ⟨i, hi, hbeq⟩ := List.mem_iff_getElem.mp hbB
      have h1 := (ha i hi s).mp (hbeq ▸ hsb)
      exact lvlB_mem ids (depsMap ids prs) (0 + i + 1) s h1.1
    · intro hs
      exact hb s hs rfl
  · intro a b i j hi hj hab hai hbj
    have hA := (ha i hi a).mp hai
    have hBj := (ha j hj b).mp hbj
    have hbids : b ∈ ids := hdst (a, b) hab
    have hadeps : a ∈ depsMap ids prs b := (mem_depsMap ids prs b a hbids).mpr hab
    obtain ⟨_, hall⟩ := (lvlB_succ ids (depsMap ids prs) (0 + j) b).mp hBj.1
    have hLja := hall a hadeps
    by_contra hij
    push_neg at hij
    have hmono := lvlB_mono ids (depsMap ids prs) (0 + j) (0 + i)
      (by omega) a hLja
    rw [hA.2] at hmono
    cases hmono

/-- When some step is dependency-free (or the plan is empty), the
fallback first-step branch is not taken and determine_execution_order
is the plain Kahn loop seeded with the dependency-free steps. -/
theorem determine_eq_kahn (g : GraphStore) (steps : List GraphNode)
    (h : steps = [] ∨ (steps.map (fun s => s.id)).filter
      (fun s => decide (depsMap (steps.map (fun s => s.id)) (stepOrderPairs g steps) s = [])) ≠ []) :
    PlanExecutor.determine_execution_order g steps =
      kahnLoop (dependentsMap (stepOrderPairs g steps)) (steps.length + 1)
        (depsMap (steps.map (fun s => s.id)) (stepOrderPairs g steps))
        ((steps.map (fun s => s.id)).filter
          (fun s => decide (depsMap (steps.map (fun s => s.id)) (stepOrderPairs g steps) s = []))) := by
  cases steps with
  | nil => rfl
  | cons s0 rest =>
    rcases h with h | h
    · exact absurd h (by simp)
    · unfold PlanExecutor.determine_execution_order
      simp only [List.map_cons] at h ⊢
      rw [if_neg]
      intro hc
      exact h (List.isEmpty_iff.mp hc)

/-- A rank function decreasing along no edge rules out cycles. -/
theorem acyclic_of_rank (prs : List (String × String)) (f : String → Nat)
    (h : ∀ p ∈ prs, f p.1 < f p.2) :
    ∀ s, ¬ Relation.TransGen (fun a b => (a, b) ∈ prs) s s := by
  have hlt : ∀ a b, Relation.TransGen (fun a b => (a, b) ∈ prs) a b → f a < f b := by
    intro a b hab
    induction hab with
    | single h1 => exact h _ h1
    | tail _ h2 ih => exact Nat.lt_trans ih (h _ h2)
  intro s hs
  exact Nat.lt_irrefl (f s) (hlt s s hs)

/-- C1: on a plan whose STEP_ORDER graph over its (distinct) steps is
acyclic, determine_execution_order emits batches in which every step of
the plan appears exactly once (membership in some batch is plan
membership, and the concatenation of the batches has no duplicates),
every STEP_ORDER edge goes from an earlier batch to a strictly later
one, and on every nonempty steps list the processor's private
implementation returns the executor's batches (on the empty list it
raises IndexError instead; see the C1 counterexample). -/
theorem C1_determine_execution_order_correct (g : GraphStore) (steps : List GraphNode)
    (hids : (steps.map (fun s => s.id)).Nodup)
    (hdst : ∀ p ∈ stepOrderPairs g steps, p.2 ∈ steps.map (fun s => s.id))
    (hacyc : ∀ s, ¬ Relation.TransGen
      (fun a b => (a, b) ∈ stepOrderPairs g steps) s s) :
    (∀ s, (∃ b ∈ PlanExecutor.determine_execution_order g steps, s ∈ b) ↔
      s ∈ steps.map (fun s => s.id)) ∧
    (PlanExecutor.determine_execution_order g steps).flatten.Nodup ∧
    (∀ (a b : String) (i j : Nat)
      (hi : i < (PlanExecutor.determine_execution_order g steps).length)
      (hj : j < (PlanExecutor.determine_execution_order g steps).length),
      (a, b) ∈ stepOrderPairs g steps →
      a ∈ (PlanExecutor.determine_execution_order g steps)[i] →
      b ∈ (PlanExecutor.determine_execution_order g steps)[j] → i < j) ∧
    (steps ≠ [] → GraphAwareToolProcessor.determine_execution_order g steps =
      Except.ok (PlanExecutor.determine_execution_order g steps)) := by
  have hsrc := stepOrderPairs_fst g steps
  by_cases hne : steps = []
  · have hnil : PlanExecutor.determine_execution_order g steps = [] := by
      subst hne
      rfl
    refine ⟨?_, ?_, ?_, fun hcon => absurd hne hcon⟩
    · intro s
      rw [hnil]
      subst hne
      simp
    · rw [hnil]
      simp
    · intro a b i j hi hj
      rw [hnil] at hi
      simp at hi
  · have hr1ne : (steps.map (fun s => s.id)).filter
        (fun s => decide (depsMap (steps.map (fun s => s.id))
          (stepOrderPairs g steps) s = [])) ≠ [] := by
      intro hcontra
      obtain ⟨s1, hs1⟩ := List.exists_mem_of_ne_nil steps hne
      have hs1id : s1.id ∈ steps.map (fun s => s.id) :=
        List.mem_map_of_mem (fun s => s.id) hs1
      have hall : ∀ s ∈ steps.map (fun s => s.id),
          depsMap (steps.map (fun s => s.id)) (stepOrderPairs g steps) s ≠ [] := by
        intro s hs hds
        have hmem : s ∈ (steps.map (fun s => s.id)).filter
            (fun s => decide (depsMap (steps.map (fun s => s.id))
              (stepOrderPairs g steps) s = [])) :=
          List.mem_filter.mpr ⟨hs, by rw [hds]; simp⟩
        rw [hcontra] at hmem
        cases hmem
      have hnone := lvlB_none (steps.map (fun s => s.id))
        (depsMap (steps.map (fun s => s.id)) (stepOrderPairs g steps)) hall
        (steps.map (fun s => s.id)).length s1.id
      have hcov := lvlB_cover (steps.map (fun s => s.id)) (stepOrderPairs g steps)
        hsrc hacyc s1.id hs1id
      rw [hnone] at hcov
      cases hcov
    have hBdef := determine_eq_kahn g steps (Or.inr hr1ne)
    have hmain := kahn_main (steps.map (fun s => s.id)) (stepOrderPairs g steps)
      hids hsrc hdst hacyc steps.length (by rw [List.length_map])
      (PlanExecutor.determine_execution_order g steps) hBdef
    exact ⟨hmain.1, hmain.2.1, hmain.2.2,
      fun hne2 => processor_order_eq_plan_executor g steps hne2 hdst⟩

/-- Concrete acyclic demo plan for C1: a chain s1 -> s2 -> s3. -/
def stepsC1 : List GraphNode :=
  [{ id := "s1", kind := .PLAN_STEP, data := [("index", Json.str "1")] },
   { id := "s2", kind := .PLAN_STEP, data := [("index", Json.str "2")] },
   { id := "s3", kind := .PLAN_STEP, data := [("index", Json.str "3")] }]

/-- Concrete store for the C1 witness. -/
def gC1 : GraphStore :=
  { nodes := stepsC1,
    edges := [{ kind := .STEP_ORDER, src := "s1", dst := "s2" },
              { kind := .STEP_ORDER, src := "s2", dst := "s3" }] }

/-- C1 counterexample: on the empty steps list -- whose STEP_ORDER
graph is trivially acyclic -- the processor's
_determine_execution_order raises IndexError from its unguarded
`steps[0]` fallback (processor.py lacks plan_executor.py's `and steps`
guard), where PlanExecutor.determine_execution_order returns no
batches; so the processor does not return batches there and the two
implementations disagree. -/
theorem C1_counterexample :
    GraphAwareToolProcessor.determine_execution_order
      { nodes := [], edges := [] } [] =
      Except.error "IndexError: list index out of range" ∧
    PlanExecutor.determine_execution_order { nodes := [], edges := [] } [] = [] :=
  ⟨rfl, rfl⟩

/-- Witness for C1 at the concrete three-step chain. -/
theorem C1_determine_execution_order_correct_witness :
    (PlanExecutor.determine_execution_order gC1 stepsC1).flatten.Nodup ∧
    (∀ s, (∃ b ∈ PlanExecutor.determine_execution_order gC1 stepsC1, s ∈ b) ↔
      s ∈ stepsC1.map (fun s => s.id)) := by
  have h := C1_determine_execution_order_correct gC1 stepsC1
    (by decide)
    (by decide)
    (acyclic_of_rank (stepOrderPairs gC1 stepsC1)
      (fun s => if s = "s1" then 0 else if s = "s2" then 1 else 2)
      (by decide))
  exact ⟨h.2.1, h.1⟩

end A2A